import Mathlib

/-!
Shallow embedding of the ctypesgen processor subsystem (description store,
dependency-graph builder, inclusion resolver, conflict renamer, header masking,
and the main emit filter), translated from:

  - src/src/ctypesgen/descriptions.py
  - src/src/ctypesgen/ctypedescs.py        (type AST and visitor)
  - src/src/ctypesgen/expressions.py       (expression AST and visitor)
  - src/ctypesgen/processor/dependencies.py
  - src/src/ctypesgen/processor/pipeline.py  (calculate_final_inclusion)
  - src/src/ctypesgen/processor/operations.py  (current renamer and masking)
  - src/ctypesgen/processor/operations.py      (legacy renamer and masking)
  - src/src/ctypesgen/__main__.py          (emit filter)

Descriptions are stored in an arena (a list) and referenced by index; the
Python object references in `requirements` and `dependents` become indices.
Python sets of descriptions become duplicate-free lists of indices (insertion
order standing in for the set iteration order of one concrete run).
Fields that only matter for rendering (format strings, qualifiers, attributes)
and that no modelled operation reads are omitted.
-/

namespace Ctypesgen

/-- An error or warning entry: the message and the optional class string,
as appended by Description.error / Description.warning (descriptions.py). -/
abbrev Err := String × Option String

/-- The inclusion rule of a description: "yes", "never" or "if_needed"
(descriptions.py, attribute include_rule). -/
inductive Rule where
  | yes
  | never
  | if_needed
  deriving DecidableEq, Repr

/-! ### The C type and expression AST (ctypedescs.py, expressions.py)

Every node carries its `errors` list (CtypesType.__init__ / ExpressionNode.__init__).
-/

mutual

/-- CtypesType and its subclasses (ctypedescs.py). `pointer`'s destination is
optional because CtypesPointer.visit guards on `if self.destination`. A struct
is opaque iff its member list is `none` (CtypesStruct: `self.opaque = self.members is None`);
same for an enum's enumerator list. -/
inductive CType where
  | simple (name : String) (signed : Bool) (longs : Int) (errs : List Err)
  | special (name : String) (errs : List Err)
  | typedefRef (name : String) (errs : List Err)
  | bitfieldT (base : CType) (width : Expr) (errs : List Err)
  | pointer (dest : Option CType) (errs : List Err)
  | arrayT (base : CType) (count : Option Expr) (errs : List Err)
  | funcT (restype : CType) (argtypes : List CType) (variadic : Bool) (errs : List Err)
  | structT (tag : String) (variety : String) (members : Option (List (String × CType)))
      (errs : List Err)
  | enumT (tag : String) (enumerators : Option (List String)) (errs : List Err)

/-- ExpressionNode and its subclasses (expressions.py). Constant values are
kept as their rendered text; operator callbacks and format strings are
render-only and omitted. -/
inductive Expr where
  | constE (value : String) (errs : List Err)
  | identE (name : String) (errs : List Err)
  | paramE (name : String) (errs : List Err)
  | unaryE (child : Expr) (errs : List Err)
  | sizeofE (child : CType ⊕ Expr) (errs : List Err)
  | binE (left : Expr) (right : Expr) (errs : List Err)
  | condE (cond : Expr) (yes : Expr) (no : Expr) (errs : List Err)
  | attrE (base : Expr) (attrName : String) (errs : List Err)
  | callE (fn : Expr) (args : List Expr) (errs : List Err)
  | castE (base : Expr) (ctype : CType) (errs : List Err)
  | unsupportedE (message : String) (errs : List Err)

end

/-- The result of visit_type_and_collect_info (ctypedescs.py): struct
references as (variety, tag) pairs, enum tags, typedef names, errors, and free
identifiers, each in traversal order. -/
structure CollectInfo where
  cstructs : List (String × String) := []
  cenums : List String := []
  ctypedefs : List String := []
  errs : List Err := []
  identifiers : List String := []
  deriving DecidableEq, Repr

/-- Concatenation of two collection results, preserving traversal order. -/
def CollectInfo.app (a b : CollectInfo) : CollectInfo :=
  ⟨a.cstructs ++ b.cstructs, a.cenums ++ b.cenums, a.ctypedefs ++ b.ctypedefs,
   a.errs ++ b.errs, a.identifiers ++ b.identifiers⟩

/-- Collection result holding only node errors (CtypesType.visit /
ExpressionNode.visit base case). -/
def CollectInfo.ofErrs (errs : List Err) : CollectInfo := ⟨[], [], [], errs, []⟩

mutual

/-- The visit method of each CtypesType subclass, fused with the collecting
visitor of visit_type_and_collect_info. Each node reports its own references
first and its attached errors last, exactly as the Python visit methods call
`super().visit(visitor)` at the end. CtypesTypedef only reports its name when
it has no errors. -/
def ctypeVisit : CType → CollectInfo
  | .simple _ _ _ errs => .ofErrs errs
  | .special _ errs => .ofErrs errs
  | .typedefRef name errs =>
    (if errs.isEmpty then (⟨[], [], [name], [], []⟩ : CollectInfo) else {}).app (.ofErrs errs)
  | .bitfieldT base _ errs => (ctypeVisit base).app (.ofErrs errs)
  | .pointer dest errs =>
    (match dest with
     | some d => ctypeVisit d
     | none => {}).app (.ofErrs errs)
  | .arrayT base count errs =>
    ((ctypeVisit base).app (match count with
     | some e => exprVisit e
     | none => {})).app (.ofErrs errs)
  | .funcT restype argtypes _ errs =>
    ((ctypeVisit restype).app (ctypeListVisit argtypes)).app (.ofErrs errs)
  | .structT tag variety members errs =>
    ((⟨[(variety, tag)], [], [], [], []⟩ : CollectInfo).app (match members with
     | some ms => memberListVisit ms
     | none => {})).app (.ofErrs errs)
  | .enumT tag _ errs =>
    (⟨[], [tag], [], [], []⟩ : CollectInfo).app (.ofErrs errs)

/-- Visit of a list of argument types (CtypesFunction.visit loop). -/
def ctypeListVisit : List CType → CollectInfo
  | [] => {}
  | t :: rest => (ctypeVisit t).app (ctypeListVisit rest)

/-- Visit of a struct member list (CtypesStruct.visit loop over (name, ctype)). -/
def memberListVisit : List (String × CType) → CollectInfo
  | [] => {}
  | (_, t) :: rest => (ctypeVisit t).app (memberListVisit rest)

/-- The visit method of each ExpressionNode subclass (expressions.py).
IdentifierExpressionNode reports its name; ParameterExpressionNode reports
nothing but its errors. -/
def exprVisit : Expr → CollectInfo
  | .constE _ errs => .ofErrs errs
  | .identE name errs =>
    (⟨[], [], [], [], [name]⟩ : CollectInfo).app (.ofErrs errs)
  | .paramE _ errs => .ofErrs errs
  | .unaryE child errs => (exprVisit child).app (.ofErrs errs)
  | .sizeofE child errs =>
    (match child with
     | .inl t => ctypeVisit t
     | .inr e => exprVisit e).app (.ofErrs errs)
  | .binE l r errs => ((exprVisit l).app (exprVisit r)).app (.ofErrs errs)
  | .condE c y n errs =>
    (((exprVisit c).app (exprVisit y)).app (exprVisit n)).app (.ofErrs errs)
  | .attrE base _ errs => (exprVisit base).app (.ofErrs errs)
  | .callE fn args errs =>
    ((exprVisit fn).app (exprListVisit args)).app (.ofErrs errs)
  | .castE base ctype errs =>
    ((exprVisit base).app (ctypeVisit ctype)).app (.ofErrs errs)
  | .unsupportedE _ errs => .ofErrs errs

/-- Visit of a call argument list (CallExpressionNode.visit loop). -/
def exprListVisit : List Expr → CollectInfo
  | [] => {}
  | e :: rest => (exprVisit e).app (exprListVisit rest)

end

/-! ### Descriptions (descriptions.py) -/

/-- The kind-specific payload of a description: one constructor per
Description subclass, with the fields the modelled passes read.
Functions and variables keep `cname` (the C name, stored separately in case
the description is renamed). An undef holds the expression that names the
macro it undefines. -/
inductive DescData where
  | constantD (name : String) (value : Expr)
  | typedefD (name : String) (ctype : CType)
  | structD (tag : String) (variety : String)
      (members : Option (List (String × CType))) (opaque_ : Bool) (ctype : CType)
  | enumD (tag : String) (members : Option (List String))
  | functionD (name : String) (cname : String) (restype : CType)
      (argtypes : List CType) (variadic : Bool)
  | variableD (name : String) (cname : String) (ctype : CType)
  | macroD (name : String) (params : Option (List String)) (body : Option Expr)
  | undefD (macroRef : Expr)

/-- One description record (class Description): payload plus source location,
inclusion rule, graph edges (as arena indices), error and warning lists, and
the two resolver flags. -/
structure Desc where
  data : DescData
  src : Option (String × String) := none
  include_rule : Rule := .yes
  requirements : List Nat := []
  dependents : List Nat := []
  errors : List Err := []
  warnings : List Err := []
  can_include : Option Bool := none
  included : Bool := false

instance : Inhabited Desc := ⟨{ data := .constantD "" (.constE "" []) }⟩

/-- Name of an identifier expression node; used for UndefDescription.macro.name
(always an IdentifierExpressionNode in the data the parser builds). -/
def exprIdentName : Expr → String
  | .identE n _ => n
  | _ => ""

/-- The py_name method of each Description subclass. -/
def DescData.py_name : DescData → String
  | .constantD n _ => n
  | .typedefD n _ => n
  | .structD tag variety _ _ _ => variety ++ "_" ++ tag
  | .enumD tag _ => "enum_" ++ tag
  | .functionD n _ _ _ _ => n
  | .variableD n _ _ => n
  | .macroD n _ _ => n
  | .undefD m => "#undef:" ++ exprIdentName m

/-- The casual_name method of each Description subclass. -/
def DescData.casual_name : DescData → String
  | .constantD n _ => "Constant " ++ "'" ++ n ++ "'"
  | .typedefD n _ => "Typedef " ++ "'" ++ n ++ "'"
  | .structD tag variety _ _ _ => variety.capitalize ++ " " ++ "'" ++ tag ++ "'"
  | .enumD tag _ => "Enum " ++ "'" ++ tag ++ "'"
  | .functionD n _ _ _ _ => "Function " ++ "'" ++ n ++ "'"
  | .variableD n _ _ => "Variable " ++ "'" ++ n ++ "'"
  | .macroD n _ _ => "Macro " ++ "'" ++ n ++ "'"
  | .undefD m => "Undef " ++ "'" ++ exprIdentName m ++ "'"

/-- The plain `name` attribute, as read by add_to_lookup_table for the
identifier and typedef namespaces. -/
def DescData.nameAttr : DescData → String
  | .constantD n _ => n
  | .typedefD n _ => n
  | .structD tag _ _ _ _ => tag
  | .enumD tag _ => tag
  | .functionD n _ _ _ _ => n
  | .variableD n _ _ => n
  | .macroD n _ _ => n
  | .undefD m => exprIdentName m

def Desc.py_name (d : Desc) : String := d.data.py_name
def Desc.casual_name (d : Desc) : String := d.data.casual_name

/-- The description arena: store index i holds the description with handle i. -/
abbrev Store := List Desc

/-- Read a description from the arena (object dereference). -/
def getDesc (st : Store) (i : Nat) : Desc := st.getD i default

/-- Mutate one description in place (attribute assignment on a Python object). -/
def modifyDesc (st : Store) (i : Nat) (f : Desc → Desc) : Store :=
  st.set i (f (getDesc st i))

/-- Add an element to a set modelled as a duplicate-free list
(Python set.add / set union with a singleton). -/
def setInsert (l : List Nat) (x : Nat) : List Nat :=
  if x ∈ l then l else l ++ [x]

/-- Description.add_requirements (descriptions.py lines 56-59):
`self.requirements |= set(reqs)` and, for every req, `req.dependents.add(self)`. -/
def add_requirements (st : Store) (self : Nat) (reqs : List Nat) : Store :=
  let st := modifyDesc st self fun x => { x with requirements := reqs.foldl setInsert x.requirements }
  reqs.foldl (fun acc req => modifyDesc acc req fun x => { x with dependents := setInsert x.dependents self }) st

/-- Description.error: append (msg, cls) to the errors list. -/
def descError (st : Store) (i : Nat) (msg : String) (cls : Option String) : Store :=
  modifyDesc st i fun x => { x with errors := x.errors ++ [(msg, cls)] }

/-- Description.warning: append (msg, cls) to the warnings list. -/
def descWarning (st : Store) (i : Nat) (msg : String) (cls : Option String) : Store :=
  modifyDesc st i fun x => { x with warnings := x.warnings ++ [(msg, cls)] }

/-- The DescriptionCollection (descriptions.py): category index lists, the
`all` list and the ordered (kind, description) output list, over one arena. -/
structure DescriptionCollection where
  store : Store
  constants : List Nat := []
  typedefs : List Nat := []
  structs : List Nat := []
  enums : List Nat := []
  functions : List Nat := []
  variables_ : List Nat := []
  macros : List Nat := []
  all : List Nat := []
  output_order : List (String × Nat) := []

end Ctypesgen

namespace Ctypesgen

/-! ### The inclusion resolver (pipeline.py, calculate_final_inclusion, lines 67-102)

The resolver reads only the include_rule and requirements fields; its two
mutable per-description attributes (can_include and included) are handled as
columns, read out of the store at entry and written back at exit. Recursion is
implemented on fuel; the pipeline always calls with fuel = store length + 1,
which is enough for the memoized recursion of `can_include_desc` (recursion
only descends into a description whose memo is still None, and sets the memo
before descending) and for `do_include_desc` (recursion only descends after
newly marking a description included). Out-of-range reads use the inert
defaults (rule never, no requirements), which the in-range hypotheses of the
theorems below exclude. -/

/-- can_include_desc (pipeline.py lines 76-87): if the memo is unset, a never
rule decides false; otherwise the memo is tentatively set to True and every
requirement is evaluated, any non-includable requirement resetting the memo to
False; the stored memo is returned. -/
def can_include_desc (rules : List Rule) (reqs : List (List Nat)) :
    Nat → Nat → List (Option Bool) → Bool × List (Option Bool)
  | fuel, d, can =>
    match can.getD d none with
    | some b => (b, can)
    | none =>
      match fuel with
      | 0 => (false, can)
      | fuel + 1 =>
        match rules.getD d .never with
        | .never => (false, can.set d (some false))
        | _ =>
          let can1 := can.set d (some true)
          let can2 := (reqs.getD d []).foldl
            (fun c r =>
              let p := can_include_desc rules reqs fuel r c
              if p.1 then p.2 else p.2.set d (some false)) can1
          ((can2.getD d none).getD false, can2)

/-- do_include_desc (pipeline.py lines 89-94): stop if already included,
otherwise mark included and recurse into every requirement. -/
def do_include_desc (reqs : List (List Nat)) : Nat → Nat → List Bool → List Bool
  | 0, _, inc => inc
  | fuel + 1, d, inc =>
    if inc.getD d false then inc
    else (reqs.getD d []).foldl (fun c r => do_include_desc reqs fuel r c) (inc.set d true)

/-- The reset loop of calculate_final_inclusion (pipeline.py lines 96-98):
`for desc in data.all: desc.can_include = None; desc.included = False`,
one attribute column at a time. -/
def resetColumn {α : Type} (all : List Nat) (v : α) (c : List α) : List α :=
  all.foldl (fun c i => c.set i v) c

/-- The root loop of calculate_final_inclusion (pipeline.py lines 100-102):
for every description in data.all with rule "yes" whose requirements can be
included, include it transitively. The memo column is threaded through even
when the verdict is negative, exactly as the Python attributes persist. -/
def rootLoop (rules : List Rule) (reqs : List (List Nat)) (fuel : Nat) (all : List Nat)
    (p : List (Option Bool) × List Bool) : List (Option Bool) × List Bool :=
  all.foldl
    (fun p d =>
      if rules.getD d .never = .yes then
        let q := can_include_desc rules reqs fuel d p.1
        if q.1 then (q.2, do_include_desc reqs fuel d p.2) else (q.2, p.2)
      else p)
    p

/-- Write the two attribute columns back into the store (the store keeps the
can_include and included attributes on each description). -/
def writeColumns : Nat → List (Option Bool) → List Bool → Store → Store
  | _, _, _, [] => []
  | i, can, inc, x :: rest =>
    { x with can_include := can.getD i none, included := inc.getD i false } ::
      writeColumns (i + 1) can inc rest

/-- calculate_final_inclusion (pipeline.py lines 96-102): reset can_include and
included for every description in data.all, then walk data.all and, for each
description with rule "yes" that can be included, include it transitively. -/
def calculate_final_inclusion (all : List Nat) (st : Store) : Store :=
  let rules := st.map (·.include_rule)
  let reqs := st.map (·.requirements)
  let fuel := st.length + 1
  let can0 := resetColumn all none (st.map (·.can_include))
  let inc0 := resetColumn all false (st.map (·.included))
  let p := rootLoop rules reqs fuel all (can0, inc0)
  writeColumns 0 p.1 p.2 st

end Ctypesgen

namespace Ctypesgen

/-! ### List-column helper lemmas -/

theorem getD_cons_succ' {α : Type} (a : α) (l : List α) (i : Nat) (d : α) :
    (a :: l).getD (i + 1) d = l.getD i d := rfl

theorem getD_cons_zero' {α : Type} (a : α) (l : List α) (d : α) :
    (a :: l).getD 0 d = a := rfl

theorem getD_nil' {α : Type} (i : Nat) (d : α) : ([] : List α).getD i d = d := by
  cases i <;> rfl

theorem getD_set_self {α : Type} (v d : α) :
    ∀ (l : List α) (i : Nat), i < l.length → (l.set i v).getD i d = v := by
  intro l
  induction l with
  | nil => intro i h; simp at h
  | cons a t ih =>
    intro i h
    cases i with
    | zero => rfl
    | succ j => exact ih j (by simpa using h)

theorem getD_set_ne {α : Type} (v d : α) :
    ∀ (l : List α) (i j : Nat), i ≠ j → (l.set i v).getD j d = l.getD j d := by
  intro l
  induction l with
  | nil => intro i j _; rfl
  | cons a t ih =>
    intro i j hne
    cases i with
    | zero =>
      cases j with
      | zero => exact absurd rfl hne
      | succ k => rfl
    | succ i' =>
      cases j with
      | zero => rfl
      | succ k => exact ih i' k (by omega)

theorem set_oob {α : Type} (v : α) :
    ∀ (l : List α) (i : Nat), l.length ≤ i → l.set i v = l := by
  intro l
  induction l with
  | nil => intro i _; rfl
  | cons a t ih =>
    intro i h
    cases i with
    | zero => simp at h
    | succ j => simpa using ih j (by simpa using h)

theorem getD_set_same_le {α : Type} (v d : α) (l : List α) (i : Nat) :
    (l.set i v).getD i d = if i < l.length then v else l.getD i d := by
  split
  · exact getD_set_self v d l i (by assumption)
  · rw [set_oob v l i (by omega)]

theorem getD_oob {α : Type} (d : α) :
    ∀ (l : List α) (i : Nat), l.length ≤ i → l.getD i d = d := by
  intro l
  induction l with
  | nil => intro i _; exact getD_nil' i d
  | cons a t ih =>
    intro i h
    cases i with
    | zero => simp at h
    | succ j => exact ih j (by simpa using h)

theorem getD_map' {α β : Type} (f : α → β) (d : β) (d' : α) :
    ∀ (l : List α) (i : Nat), i < l.length → (l.map f).getD i d = f (l.getD i d') := by
  intro l
  induction l with
  | nil => intro i h; simp at h
  | cons a t ih =>
    intro i h
    cases i with
    | zero => rfl
    | succ j => exact ih j (by simpa using h)

theorem getD_replicate' {α : Type} (v d : α) :
    ∀ (n i : Nat), (List.replicate n v).getD i d = if i < n then v else d := by
  intro n
  induction n with
  | zero => intro i; simp [getD_nil']
  | succ m ih =>
    intro i
    cases i with
    | zero => simp [List.replicate]
    | succ j =>
      rw [List.replicate, getD_cons_succ', ih j]
      by_cases h : j < m
      · simp [h, Nat.succ_lt_succ h]
      · simp [h, fun hc => h (Nat.lt_of_succ_lt_succ hc)]

theorem list_ext_getD {α : Type} (d : α) :
    ∀ (l₁ l₂ : List α), l₁.length = l₂.length → (∀ i, l₁.getD i d = l₂.getD i d) → l₁ = l₂ := by
  intro l₁
  induction l₁ with
  | nil =>
    intro l₂ hlen _
    cases l₂ with
    | nil => rfl
    | cons b t => simp at hlen
  | cons a t ih =>
    intro l₂ hlen h
    cases l₂ with
    | nil => simp at hlen
    | cons b t' =>
      have h0 := h 0
      simp only [getD_cons_zero'] at h0
      have ht := ih t' (by simpa using hlen) (fun i => h (i + 1))
      rw [h0, ht]

theorem foldl_preserve_mem {α β : Type} {P : β → Prop} {f : β → α → β} :
    ∀ (l : List α) (b : β), (∀ c a, a ∈ l → P c → P (f c a)) → P b → P (l.foldl f b) := by
  intro l
  induction l with
  | nil => intro b _ hb; exact hb
  | cons a t ih =>
    intro b hstep hb
    exact ih (f b a) (fun c x hx hc => hstep c x (List.mem_cons_of_mem a hx) hc)
      (hstep b a (List.mem_cons_self a t) hb)

end Ctypesgen

namespace Ctypesgen

/-! ### Properties of the inclusion resolver -/

/-- Transitive requirement reachability over the requirement adjacency lists:
`Reaches reqs a b` holds when b is a (possibly empty) chain of requirement
edges away from a. -/
inductive Reaches (reqs : List (List Nat)) : Nat → Nat → Prop
  | refl (a : Nat) : Reaches reqs a a
  | tail {a b c : Nat} : Reaches reqs a b → c ∈ reqs.getD b [] → Reaches reqs a c

theorem Reaches.trans' {reqs : List (List Nat)} {a b c : Nat}
    (h₁ : Reaches reqs a b) (h₂ : Reaches reqs b c) : Reaches reqs a c := by
  induction h₂ with
  | refl => exact h₁
  | tail _ hedge ih => exact .tail ih hedge

/-- A requirement graph is well formed for a store of n descriptions when all
edges stay in range. -/
def WFgraph (reqs : List (List Nat)) (n : Nat) : Prop :=
  ∀ x r, r ∈ reqs.getD x [] → r < n

/-- Number of not-yet-included entries of the included column. -/
def countFalse (inc : List Bool) : Nat := (inc.filter (fun b => !b)).length

theorem countFalse_le_length (inc : List Bool) : countFalse inc ≤ inc.length :=
  List.length_filter_le _ inc

theorem countFalse_set_true :
    ∀ (inc : List Bool) (d : Nat), d < inc.length → inc.getD d false = false →
      countFalse (inc.set d true) + 1 = countFalse inc := by
  intro inc
  induction inc with
  | nil => intro d h; simp at h
  | cons a t ih =>
    intro d hlen hfalse
    cases d with
    | zero =>
      rw [getD_cons_zero'] at hfalse
      subst hfalse
      simp [countFalse, List.filter]
    | succ j =>
      rw [getD_cons_succ'] at hfalse
      have := ih j (by simpa using hlen) hfalse
      cases a <;> simp [countFalse, List.filter] at this ⊢ <;> omega

theorem countFalse_mono_pointwise :
    ∀ (inc inc' : List Bool), inc'.length = inc.length →
      (∀ x, inc.getD x false = true → inc'.getD x false = true) →
      countFalse inc' ≤ countFalse inc := by
  intro inc
  induction inc with
  | nil =>
    intro inc' hlen _
    cases inc' with
    | nil => exact Nat.le_refl _
    | cons b t => simp at hlen
  | cons a t ih =>
    intro inc' hlen h
    cases inc' with
    | nil => simp [countFalse]
    | cons b t' =>
      have htail := ih t' (by simpa using hlen) (fun x hx => h (x + 1) hx)
      have hhead : a = true → b = true := fun ha => h 0 (by simpa [getD_cons_zero'] using ha)
      cases a with
      | false => cases b <;> simp [countFalse, List.filter] at htail ⊢ <;> omega
      | true =>
        rw [hhead rfl]
        simpa [countFalse, List.filter] using htail

theorem do_include_length (reqs : List (List Nat)) :
    ∀ (fuel d : Nat) (inc : List Bool),
      (do_include_desc reqs fuel d inc).length = inc.length := by
  intro fuel
  induction fuel with
  | zero => intro d inc; rfl
  | succ f ih =>
    intro d inc
    rw [do_include_desc]
    split
    · rfl
    · have base : ∀ (l : List Nat) (c : List Bool),
          (l.foldl (fun c r => do_include_desc reqs f r c) c).length = c.length := by
        intro l
        induction l with
        | nil => intro c; rfl
        | cons r rest ihl => intro c; rw [List.foldl_cons, ihl, ih]
      rw [base, List.length_set]

theorem do_include_mono (reqs : List (List Nat)) :
    ∀ (fuel d : Nat) (inc : List Bool) (x : Nat),
      inc.getD x false = true → (do_include_desc reqs fuel d inc).getD x false = true := by
  intro fuel
  induction fuel with
  | zero => intro d inc x h; exact h
  | succ f ih =>
    intro d inc x h
    rw [do_include_desc]
    split
    · exact h
    · have base : ∀ (l : List Nat) (c : List Bool), c.getD x false = true →
          (l.foldl (fun c r => do_include_desc reqs f r c) c).getD x false = true := by
        intro l
        induction l with
        | nil => intro c hc; exact hc
        | cons r rest ihl => intro c hc; exact ihl _ (ih r c x hc)
      apply base
      by_cases hx : d = x
      · subst hx
        rw [getD_set_same_le]
        split
        · rfl
        · exact h
      · rw [getD_set_ne _ _ _ _ _ hx]
        exact h

theorem do_include_marks (reqs : List (List Nat)) (fuel d : Nat) (inc : List Bool)
    (hd : d < inc.length) :
    (do_include_desc reqs (fuel + 1) d inc).getD d false = true := by
  rw [do_include_desc]
  split
  · assumption
  · have base : ∀ (l : List Nat) (c : List Bool), c.getD d false = true →
        (l.foldl (fun c r => do_include_desc reqs fuel r c) c).getD d false = true := by
      intro l
      induction l with
      | nil => intro c hc; exact hc
      | cons r rest ihl => intro c hc; exact ihl _ (do_include_mono reqs fuel r c d hc)
    exact base _ _ (getD_set_self true false inc d hd)

theorem do_include_reach (reqs : List (List Nat)) :
    ∀ (fuel d : Nat) (inc : List Bool) (x : Nat),
      (do_include_desc reqs fuel d inc).getD x false = true →
      inc.getD x false = true ∨ Reaches reqs d x := by
  intro fuel
  induction fuel with
  | zero => intro d inc x h; exact Or.inl h
  | succ f ih =>
    intro d inc x h
    rw [do_include_desc] at h
    split at h
    · exact Or.inl h
    · have base : ∀ (l : List Nat) (c : List Bool),
          (∀ r ∈ l, Reaches reqs d r) →
          (∀ y, c.getD y false = true → inc.getD y false = true ∨ Reaches reqs d y) →
          ∀ y, (l.foldl (fun c r => do_include_desc reqs f r c) c).getD y false = true →
            inc.getD y false = true ∨ Reaches reqs d y := by
        intro l
        induction l with
        | nil => intro c _ hc y hy; exact hc y hy
        | cons r rest ihl =>
          intro c hedge hc y hy
          refine ihl _ (fun r' hr' => hedge r' (List.mem_cons_of_mem r hr')) ?_ y hy
          intro z hz
          rcases ih r c z hz with hold | hreach
          · exact hc z hold
          · exact Or.inr ((hedge r (List.mem_cons_self r rest)).trans' hreach)
      refine base _ _ (fun r hr => .tail (.refl d) hr) ?_ x h
      intro z hz
      by_cases hzd : d = z
      · subst hzd; exact Or.inr (.refl d)
      · rw [getD_set_ne _ _ _ _ _ hzd] at hz
        exact Or.inl hz

/-- The included column is closed under requirement edges, except for the
descriptions still pending on the explicit worklist P. -/
def ClosedExcept (reqs : List (List Nat)) (inc : List Bool) (P : List Nat) : Prop :=
  ∀ x, inc.getD x false = true → ∀ r ∈ reqs.getD x [], inc.getD r false = true ∨ r ∈ P

theorem do_include_closed (reqs : List (List Nat)) :
    ∀ (fuel : Nat) (d : Nat) (P : List Nat) (inc : List Bool),
      WFgraph reqs inc.length → d < inc.length → countFalse inc < fuel →
      ClosedExcept reqs inc (d :: P) →
      ClosedExcept reqs (do_include_desc reqs fuel d inc) P := by
  intro fuel
  induction fuel with
  | zero => intro d P inc _ _ hcount _; omega
  | succ f ihf =>
    intro d P inc hwf hd hcount hce
    rw [do_include_desc]
    split
    · intro x hx r hr
      rcases hce x hx r hr with h | h
      · exact Or.inl h
      · rcases List.mem_cons.mp h with rfl | h
        · exact Or.inl (by assumption)
        · exact Or.inr h
    · rename_i hdfalse
      have hdfalse' : inc.getD d false = false := by
        cases h : inc.getD d false
        · rfl
        · exact absurd h hdfalse
      have hcount' : countFalse (inc.set d true) < f := by
        have := countFalse_set_true inc d hd hdfalse'
        omega
      have hlen' : (inc.set d true).length = inc.length := List.length_set ..
      have hmark : (inc.set d true).getD d false = true := getD_set_self true false inc d hd
      have hce' : ClosedExcept reqs (inc.set d true) (reqs.getD d [] ++ P) := by
        intro x hx r hr
        by_cases hxd : x = d
        · subst hxd
          exact Or.inr (List.mem_append_left P hr)
        · rw [getD_set_ne _ _ _ _ _ (fun h => hxd h.symm)] at hx
          rcases hce x hx r hr with h | h
          · by_cases hrd : d = r
            · subst hrd; exact Or.inl hmark
            · exact Or.inl (by rw [getD_set_ne _ _ _ _ _ hrd]; exact h)
          · rcases List.mem_cons.mp h with rfl | h
            · exact Or.inl hmark
            · exact Or.inr (List.mem_append_right _ h)
      have hfold : ∀ (l : List Nat) (c : List Bool) (Q : List Nat),
          c.length = inc.length → (∀ r ∈ l, r < inc.length) → countFalse c < f →
          ClosedExcept reqs c (l ++ Q) →
          ClosedExcept reqs (l.foldl (fun c r => do_include_desc reqs f r c) c) Q := by
        intro l
        induction l with
        | nil => intro c Q _ _ _ h; simpa using h
        | cons r rest ihl =>
          intro c Q hclen hrange hc hcce
          rw [List.foldl_cons]
          have hstep : ClosedExcept reqs (do_include_desc reqs f r c) (rest ++ Q) := by
            refine ihf r (rest ++ Q) c (by rw [hclen]; exact hwf) ?_ hc ?_
            · rw [hclen]; exact hrange r (List.mem_cons_self r rest)
            · simpa using hcce
          refine ihl _ Q ?_ (fun r' h => hrange r' (List.mem_cons_of_mem r h)) ?_ hstep
          · rw [do_include_length, hclen]
          · calc countFalse (do_include_desc reqs f r c)
                ≤ countFalse c := by
                  refine countFalse_mono_pointwise c _ (do_include_length ..) ?_
                  intro x hx
                  exact do_include_mono reqs f r c x hx
              _ < f := hc
      refine hfold _ _ P hlen' (fun r hr => hwf d r hr) hcount' ?_
      exact hce'

end Ctypesgen

namespace Ctypesgen

/-! ### Behaviour of the reset, root-loop and write-back phases -/

theorem writeColumns_length (can : List (Option Bool)) (inc : List Bool) :
    ∀ (st : Store) (i : Nat), (writeColumns i can inc st).length = st.length := by
  intro st
  induction st with
  | nil => intro i; rfl
  | cons x rest ih => intro i; simp [writeColumns, ih]

theorem getDesc_writeColumns (can : List (Option Bool)) (inc : List Bool) :
    ∀ (st : Store) (i j : Nat), j < st.length →
      getDesc (writeColumns i can inc st) j =
        { getDesc st j with can_include := can.getD (i + j) none,
                            included := inc.getD (i + j) false } := by
  intro st
  induction st with
  | nil => intro i j h; simp at h
  | cons x rest ih =>
    intro i j h
    cases j with
    | zero => rfl
    | succ k =>
      have := ih (i + 1) k (by simpa using h)
      simp only [writeColumns, getDesc, getD_cons_succ'] at this ⊢
      rw [this]
      have : i + 1 + k = i + (k + 1) := by omega
      rw [this]

theorem resetColumn_length {α : Type} (v : α) :
    ∀ (all : List Nat) (c : List α), (resetColumn all v c).length = c.length := by
  intro all
  induction all with
  | nil => intro c; rfl
  | cons i rest ih =>
    intro c
    show (resetColumn rest v (c.set i v)).length = c.length
    rw [ih, List.length_set]

theorem resetColumn_getD {α : Type} (v d : α) :
    ∀ (all : List Nat) (c : List α) (x : Nat),
      (resetColumn all v c).getD x d =
        if x ∈ all ∧ x < c.length then v else c.getD x d := by
  intro all
  induction all with
  | nil => intro c x; simp [resetColumn]
  | cons i rest ih =>
    intro c x
    show (resetColumn rest v (c.set i v)).getD x d = _
    rw [ih (c.set i v) x, List.length_set]
    by_cases hmem : x ∈ rest
    · by_cases hlt : x < c.length
      · rw [if_pos ⟨hmem, hlt⟩, if_pos ⟨List.mem_cons_of_mem i hmem, hlt⟩]
      · rw [if_neg (fun h => hlt h.2), if_neg (fun h => hlt h.2)]
        rw [getD_oob d _ x (by rw [List.length_set]; omega), getD_oob d c x (by omega)]
    · by_cases hxi : x = i
      · subst hxi
        by_cases hlt : x < c.length
        · rw [if_neg (fun h => hmem h.1), if_pos ⟨List.mem_cons_self x rest, hlt⟩]
          exact getD_set_self v d c x hlt
        · rw [if_neg (fun h => hmem h.1), if_neg (fun h => hlt h.2)]
          rw [set_oob v c x (by omega)]
      · rw [if_neg (fun h => hmem h.1)]
        rw [getD_set_ne v d c i x (fun h => hxi h.symm)]
        rw [if_neg (fun h => (List.mem_cons.mp h.1).elim (fun he => hxi he) (fun hm => hmem hm))]

theorem resetColumn_eq_replicate {α : Type} (v : α) (all : List Nat) (c : List α)
    (hcov : ∀ i, i < c.length → i ∈ all) :
    resetColumn all v c = List.replicate c.length v := by
  refine list_ext_getD v _ _ ?_ ?_
  · rw [resetColumn_length, List.length_replicate]
  · intro i
    rw [resetColumn_getD, getD_replicate']
    by_cases h : i < c.length
    · simp [h, hcov i h]
    · simp only [h, and_false, if_false]
      exact getD_oob v c i (by omega)

theorem rootLoop_inc_length (rules : List Rule) (reqs : List (List Nat)) (fuel : Nat) :
    ∀ (all : List Nat) (p : List (Option Bool) × List Bool),
      (rootLoop rules reqs fuel all p).2.length = p.2.length := by
  intro all
  unfold rootLoop
  induction all with
  | nil => intro p; rfl
  | cons a rest ih =>
    intro p
    rw [List.foldl_cons]
    rw [ih]
    dsimp only
    split
    · split
      · exact do_include_length ..
      · rfl
    · rfl

theorem rootLoop_closed (rules : List Rule) (reqs : List (List Nat)) (n : Nat)
    (hwf : WFgraph reqs n) :
    ∀ (all : List Nat), (∀ i ∈ all, i < n) →
      ∀ (p : List (Option Bool) × List Bool), p.2.length = n →
        ClosedExcept reqs p.2 [] →
        ClosedExcept reqs (rootLoop rules reqs (n + 1) all p).2 [] := by
  intro all hall p hlen hce
  have key : ∀ (q : List (Option Bool) × List Bool), q.2.length = n ∧ ClosedExcept reqs q.2 [] →
      ∀ d ∈ all,
      ((fun p d =>
        if rules.getD d .never = .yes then
          let q := can_include_desc rules reqs (n + 1) d p.1
          if q.1 then (q.2, do_include_desc reqs (n + 1) d p.2) else (q.2, p.2)
        else p) q d).2.length = n ∧
      ClosedExcept reqs ((fun p d =>
        if rules.getD d .never = .yes then
          let q := can_include_desc rules reqs (n + 1) d p.1
          if q.1 then (q.2, do_include_desc reqs (n + 1) d p.2) else (q.2, p.2)
        else p) q d).2 [] := by
    intro q hq d hd
    dsimp only
    split
    · split
      · constructor
        · rw [do_include_length]; exact hq.1
        · refine do_include_closed reqs (n + 1) d [] q.2 (by rw [hq.1]; exact hwf) ?_ ?_ ?_
          · rw [hq.1]; exact hall d hd
          · have := countFalse_le_length q.2
            omega
          · intro x hx r hr
            rcases hq.2 x hx r hr with h | h
            · exact Or.inl h
            · simp at h
      · exact hq
    · exact hq
  have := foldl_preserve_mem (P := fun (q : List (Option Bool) × List Bool) =>
    q.2.length = n ∧ ClosedExcept reqs q.2 []) all p (fun c a ha hc => key c hc a ha) ⟨hlen, hce⟩
  exact this.2

/-- The reach-from-an-included-yes-root invariant of the root loop. -/
def RootedInv (rules : List Rule) (reqs : List (List Nat)) (inc : List Bool) : Prop :=
  ∀ x, inc.getD x false = true →
    ∃ R, rules.getD R .never = .yes ∧ inc.getD R false = true ∧ Reaches reqs R x

theorem rootLoop_rooted (rules : List Rule) (reqs : List (List Nat)) (n : Nat) :
    ∀ (all : List Nat), (∀ i ∈ all, i < n) →
      ∀ (p : List (Option Bool) × List Bool), p.2.length = n →
        RootedInv rules reqs p.2 →
        RootedInv rules reqs (rootLoop rules reqs (n + 1) all p).2 := by
  intro all hall p hlen hinv
  have key : ∀ (q : List (Option Bool) × List Bool), q.2.length = n ∧ RootedInv rules reqs q.2 →
      ∀ d ∈ all,
      ((fun p d =>
        if rules.getD d .never = .yes then
          let q := can_include_desc rules reqs (n + 1) d p.1
          if q.1 then (q.2, do_include_desc reqs (n + 1) d p.2) else (q.2, p.2)
        else p) q d).2.length = n ∧
      RootedInv rules reqs ((fun p d =>
        if rules.getD d .never = .yes then
          let q := can_include_desc rules reqs (n + 1) d p.1
          if q.1 then (q.2, do_include_desc reqs (n + 1) d p.2) else (q.2, p.2)
        else p) q d).2 := by
    intro q hq d hd
    dsimp only
    split
    · split
      · rename_i hrule _
        constructor
        · rw [do_include_length]; exact hq.1
        · intro x hx
          rcases do_include_reach reqs (n + 1) d q.2 x hx with hold | hreach
          · rcases hq.2 x hold with ⟨R, hR1, hR2, hR3⟩
            exact ⟨R, hR1, do_include_mono reqs (n + 1) d q.2 R hR2, hR3⟩
          · refine ⟨d, hrule, ?_, hreach⟩
            exact do_include_marks reqs n d q.2 (by rw [hq.1]; exact hall d hd)
      · exact hq
    · exact hq
  have := foldl_preserve_mem (P := fun (q : List (Option Bool) × List Bool) =>
    q.2.length = n ∧ RootedInv rules reqs q.2) all p (fun c a ha hc => key c hc a ha) ⟨hlen, hinv⟩
  exact this.2

end Ctypesgen

namespace Ctypesgen

/-- The (can_include, included) column pair computed by one run of
calculate_final_inclusion, before being written back to the store. -/
def rootPair (all : List Nat) (st : Store) : List (Option Bool) × List Bool :=
  rootLoop (st.map (·.include_rule)) (st.map (·.requirements)) (st.length + 1) all
    (resetColumn all none (st.map (·.can_include)),
     resetColumn all false (st.map (·.included)))

theorem calc_def (all : List Nat) (st : Store) :
    calculate_final_inclusion all st =
      writeColumns 0 (rootPair all st).1 (rootPair all st).2 st := rfl

theorem calc_length (all : List Nat) (st : Store) :
    (calculate_final_inclusion all st).length = st.length := by
  rw [calc_def]; exact writeColumns_length ..

theorem getDesc_calc (all : List Nat) (st : Store) (j : Nat) (hj : j < st.length) :
    getDesc (calculate_final_inclusion all st) j =
      { getDesc st j with
        can_include := (rootPair all st).1.getD j none,
        included := (rootPair all st).2.getD j false } := by
  rw [calc_def]
  have := getDesc_writeColumns (rootPair all st).1 (rootPair all st).2 st 0 j hj
  simpa using this

theorem rootPair_inc_length (all : List Nat) (st : Store) :
    (rootPair all st).2.length = st.length := by
  unfold rootPair
  rw [rootLoop_inc_length, resetColumn_length, List.length_map]

end Ctypesgen

namespace Ctypesgen

/-- Claim C4 (pipeline.py lines 96-102): calculate_final_inclusion first resets
can_include and included for every description in data.all and then recomputes
them from the include_rule and requirements attributes only; as long as
data.all covers the store (which the parser guarantees, since it appends every
description it creates to data.all), running the pass twice in a row therefore
yields exactly the same store as running it once. -/
theorem calculate_final_inclusion_idempotent (all : List Nat) (st : Store)
    (hcov : ∀ i, i < st.length → i ∈ all) :
    calculate_final_inclusion all (calculate_final_inclusion all st) =
      calculate_final_inclusion all st := by
  have hlen2 : (calculate_final_inclusion all st).length = st.length := calc_length all st
  have hrule_map : (calculate_final_inclusion all st).map (·.include_rule) =
      st.map (·.include_rule) := by
    refine list_ext_getD .never _ _ (by rw [List.length_map, List.length_map, hlen2]) ?_
    intro i
    by_cases hi : i < st.length
    · rw [getD_map' _ _ default _ i (by rw [hlen2]; exact hi),
        getD_map' _ _ default _ i hi]
      rw [show (calculate_final_inclusion all st).getD i default =
        getDesc (calculate_final_inclusion all st) i from rfl, getDesc_calc all st i hi]
      rfl
    · rw [getD_oob _ _ i (by rw [List.length_map, hlen2]; omega),
        getD_oob _ _ i (by rw [List.length_map]; omega)]
  have hreq_map : (calculate_final_inclusion all st).map (·.requirements) =
      st.map (·.requirements) := by
    refine list_ext_getD [] _ _ (by rw [List.length_map, List.length_map, hlen2]) ?_
    intro i
    by_cases hi : i < st.length
    · rw [getD_map' _ _ default _ i (by rw [hlen2]; exact hi),
        getD_map' _ _ default _ i hi]
      rw [show (calculate_final_inclusion all st).getD i default =
        getDesc (calculate_final_inclusion all st) i from rfl, getDesc_calc all st i hi]
      rfl
    · rw [getD_oob _ _ i (by rw [List.length_map, hlen2]; omega),
        getD_oob _ _ i (by rw [List.length_map]; omega)]
  have hcan2 : resetColumn all none ((calculate_final_inclusion all st).map (·.can_include)) =
      resetColumn all none (st.map (·.can_include)) := by
    rw [resetColumn_eq_replicate _ _ _ (by
        intro i hi
        rw [List.length_map, hlen2] at hi
        exact hcov i hi),
      resetColumn_eq_replicate _ _ _ (by
        intro i hi
        rw [List.length_map] at hi
        exact hcov i hi),
      List.length_map, List.length_map, hlen2]
  have hinc2 : resetColumn all false ((calculate_final_inclusion all st).map (·.included)) =
      resetColumn all false (st.map (·.included)) := by
    rw [resetColumn_eq_replicate _ _ _ (by
        intro i hi
        rw [List.length_map, hlen2] at hi
        exact hcov i hi),
      resetColumn_eq_replicate _ _ _ (by
        intro i hi
        rw [List.length_map] at hi
        exact hcov i hi),
      List.length_map, List.length_map, hlen2]
  have hpair : rootPair all (calculate_final_inclusion all st) = rootPair all st := by
    unfold rootPair
    rw [hrule_map, hreq_map, hcan2, hinc2, hlen2]
  rw [calc_def all (calculate_final_inclusion all st), hpair]
  rw [calc_def all st]
  have idem : ∀ (c1 : List (Option Bool)) (b1 : List Bool) (c2 : List (Option Bool))
      (b2 : List Bool) (s : Store) (i : Nat),
      writeColumns i c1 b1 (writeColumns i c2 b2 s) = writeColumns i c1 b1 s := by
    intro c1 b1 c2 b2 s
    induction s with
    | nil => intro i; rfl
    | cons x rest ih =>
      intro i
      show _ :: _ = _ :: _
      rw [ih (i + 1)]
  exact idem ..

end Ctypesgen

namespace Ctypesgen

theorem rootPair_closed (all : List Nat) (st : Store)
    (hwf : WFgraph (st.map (·.requirements)) st.length)
    (hall : ∀ i ∈ all, i < st.length)
    (hcov : ∀ i, i < st.length → i ∈ all) :
    ClosedExcept (st.map (·.requirements)) (rootPair all st).2 [] := by
  unfold rootPair
  rw [resetColumn_eq_replicate false all (st.map (·.included)) (by
    intro i hi
    rw [List.length_map] at hi
    exact hcov i hi), List.length_map]
  refine rootLoop_closed _ _ st.length hwf all hall _ ?_ ?_
  · exact List.length_replicate ..
  · intro x hx
    rw [getD_replicate'] at hx
    split at hx <;> simp at hx

theorem rootPair_rooted (all : List Nat) (st : Store)
    (hall : ∀ i ∈ all, i < st.length)
    (hcov : ∀ i, i < st.length → i ∈ all) :
    RootedInv (st.map (·.include_rule)) (st.map (·.requirements)) (rootPair all st).2 := by
  unfold rootPair
  rw [resetColumn_eq_replicate false all (st.map (·.included)) (by
    intro i hi
    rw [List.length_map] at hi
    exact hcov i hi), List.length_map]
  refine rootLoop_rooted _ _ st.length all hall _ ?_ ?_
  · exact List.length_replicate ..
  · intro x hx
    rw [getD_replicate'] at hx
    split at hx <;> simp at hx

/-- Claim C5 (pipeline.py lines 100-102): after calculate_final_inclusion, a
description with rule "if_needed" is included exactly when some description
with rule "yes" that is itself included transitively requires it; only
"yes"-rule descriptions are chosen as traversal roots, so an if_needed
description that no included yes-rooted description needs stays excluded. -/
theorem calculate_final_inclusion_if_needed_iff (all : List Nat) (st : Store)
    (hwf : WFgraph (st.map (·.requirements)) st.length)
    (hall : ∀ i ∈ all, i < st.length)
    (hcov : ∀ i, i < st.length → i ∈ all)
    (d : Nat) (hd : d < st.length)
    (hrule : (getDesc st d).include_rule = .if_needed) :
    ((getDesc (calculate_final_inclusion all st) d).included = true ↔
      ∃ R, R < st.length ∧
        (getDesc (calculate_final_inclusion all st) R).include_rule = .yes ∧
        (getDesc (calculate_final_inclusion all st) R).included = true ∧
        Reaches (st.map (·.requirements)) R d) := by
  have hfield : ∀ j, j < st.length →
      (getDesc (calculate_final_inclusion all st) j).included = (rootPair all st).2.getD j false ∧
      (getDesc (calculate_final_inclusion all st) j).include_rule =
        (getDesc st j).include_rule := by
    intro j hj
    rw [getDesc_calc all st j hj]
    exact ⟨rfl, rfl⟩
  constructor
  · intro h
    rw [(hfield d hd).1] at h
    rcases rootPair_rooted all st hall hcov d h with ⟨R, hR1, hR2, hR3⟩
    have hRn : R < st.length := by
      by_contra hRn
      rw [getD_oob _ _ R (by rw [List.length_map]; omega)] at hR1
      exact absurd hR1 (by decide)
    refine ⟨R, hRn, ?_, ?_, hR3⟩
    · rw [(hfield R hRn).2]
      rw [getD_map' (·.include_rule) .never default st R hRn] at hR1
      exact hR1
    · rw [(hfield R hRn).1]
      exact hR2
  · rintro ⟨R, hRn, hRrule, hRinc, hReach⟩
    rw [(hfield R hRn).1] at hRinc
    rw [(hfield d hd).1]
    have hce := rootPair_closed all st hwf hall hcov
    clear hrule hd hRrule
    induction hReach with
    | refl => exact hRinc
    | tail hab hedge ih =>
      rcases hce _ ih _ hedge with h | h
      · exact h
      · simp at h

end Ctypesgen

namespace Ctypesgen

/-- A three-description store exhibiting the resolver's stale-memo leak:
description 0 (rule yes) requires 1 and 2, description 1 (rule yes) requires 0
back (a legitimate requirement cycle), and description 2 has rule never. -/
def cycleNeverStore : Store :=
  [ { data := .functionD "A" "A" (.simple "void" true 0 []) [] false,
      requirements := [1, 2], dependents := [1] },
    { data := .functionD "B" "B" (.simple "void" true 0 []) [] false,
      requirements := [0], dependents := [0] },
    { data := .constantD "C" (.constE "1" []),
      include_rule := .never, dependents := [0] } ]

/-- Claim C1 (code bug, pipeline.py lines 67-102): calculate_final_inclusion
can mark a rule-never description included. On cycleNeverStore, evaluating
can_include_desc for root 0 leaves description 1's memo at the tentative True
it received inside the cycle, even though 0 is later found non-includable; the
root loop then trusts that stale memo, runs do_include_desc from 1, and
do_include_desc marks every requirement unconditionally — including
description 2, whose rule is never. This contradicts the function's own
docstring ("An object with include_rule='never' is never included."). -/
theorem calculate_final_inclusion_never_rule_violated :
    (getDesc (calculate_final_inclusion [0, 1, 2] cycleNeverStore) 2).include_rule = .never ∧
    (getDesc (calculate_final_inclusion [0, 1, 2] cycleNeverStore) 2).included = true ∧
    (getDesc (calculate_final_inclusion [0, 1, 2] cycleNeverStore) 0).included = true ∧
    2 ∈ (getDesc (calculate_final_inclusion [0, 1, 2] cycleNeverStore) 0).requirements :=
  ⟨rfl, rfl, rfl, by decide⟩

/-- Witness for C4 at a concrete input: running the resolver twice on
cycleNeverStore equals running it once. -/
theorem calculate_final_inclusion_idempotent_witness :
    calculate_final_inclusion [0, 1, 2] (calculate_final_inclusion [0, 1, 2] cycleNeverStore) =
      calculate_final_inclusion [0, 1, 2] cycleNeverStore :=
  calculate_final_inclusion_idempotent [0, 1, 2] cycleNeverStore (by
    intro i hi
    have h3 : i < 3 := by simpa [cycleNeverStore] using hi
    have : i = 0 ∨ i = 1 ∨ i = 2 := by omega
    rcases this with rfl | rfl | rfl <;> decide)

/-- A two-description store: description 0 (rule yes) requires description 1
(rule if_needed). -/
def ifNeededStore : Store :=
  [ { data := .functionD "f" "f" (.simple "void" true 0 []) [] false,
      requirements := [1] },
    { data := .typedefD "t" (.simple "int" true 0 []),
      include_rule := .if_needed, dependents := [0] } ]

/-- Witness for C5 at a concrete input: the if_needed description 1 of
ifNeededStore is included exactly when an included yes-rule description
transitively requires it. -/
theorem calculate_final_inclusion_if_needed_iff_witness :
    ((getDesc (calculate_final_inclusion [0, 1] ifNeededStore) 1).included = true ↔
      ∃ R, R < ifNeededStore.length ∧
        (getDesc (calculate_final_inclusion [0, 1] ifNeededStore) R).include_rule = .yes ∧
        (getDesc (calculate_final_inclusion [0, 1] ifNeededStore) R).included = true ∧
        Reaches (ifNeededStore.map (·.requirements)) R 1) :=
  calculate_final_inclusion_if_needed_iff [0, 1] ifNeededStore
    (by
      intro x r hr
      match x with
      | 0 =>
        have h1 : r = 1 := by simpa [ifNeededStore] using hr
        subst h1
        decide
      | 1 => simp [ifNeededStore] at hr
      | (n + 2) =>
        rw [show (ifNeededStore.map (·.requirements)) = [[1], []] from rfl] at hr
        rw [getD_cons_succ', getD_cons_succ', getD_nil'] at hr
        simp at hr)
    (by decide)
    (by
      intro i hi
      have h2 : i < 2 := by simpa [ifNeededStore] using hi
      have : i = 0 ∨ i = 1 := by omega
      rcases this with rfl | rfl <;> decide)
    1 (by decide) rfl

end Ctypesgen

namespace Ctypesgen

/-! ### The dependency graph builder (src/ctypesgen/processor/dependencies.py) -/

/-- The options find_dependencies reads. -/
structure DepOpts where
  linked_symbols : List String := []
  include_undefs : Bool := false

/-- A symbol namespace: an association list from key to an optional
description handle (linked-module seeds map to None). First insertion wins for
add_to_lookup_table; the seeding loop uses plain dict assignment. -/
def tblLookup {K : Type} [DecidableEq K] (m : List (K × Option Nat)) (k : K) :
    Option (Option Nat) :=
  (m.find? (fun p => decide (p.1 = k))).map (·.2)

/-- Python dict assignment `m[k] = v` (the newest entry shadows older ones). -/
def tblAssign {K : Type} (m : List (K × Option Nat)) (k : K) (v : Option Nat) :
    List (K × Option Nat) :=
  (k, v) :: m

/-- The `if key not in target: target[key] = desc` idiom of add_to_lookup_table. -/
def tblSetIfAbsent {K : Type} [DecidableEq K] (m : List (K × Option Nat)) (k : K)
    (v : Option Nat) : List (K × Option Nat) :=
  if (tblLookup m k).isSome then m else (k, v) :: m

/-- The four symbol namespaces of find_dependencies (dependencies.py lines
16-19): struct/union tags keyed by (variety, tag), enum tags, typedef names,
and the flat identifier namespace. -/
structure NameTables where
  struct_names : List ((String × String) × Option Nat) := []
  enum_names : List (String × Option Nat) := []
  typedef_names : List (String × Option Nat) := []
  ident_names : List (String × Option Nat) := []

/-- Seeding of the lookup tables from linked-module symbols (dependencies.py
lines 21-31). -/
def seedLinked (linked : List String) (t : NameTables) : NameTables :=
  linked.foldl
    (fun t name =>
      let t := { t with typedef_names := tblAssign t.typedef_names name none,
                        ident_names := tblAssign t.ident_names name none }
      let t :=
        if name.startsWith "struct_" || name.startsWith "enum_" then
          let parts := name.splitOn "_"
          let key := (parts.getD 0 "", String.intercalate "_" (parts.drop 1))
          { t with struct_names := tblAssign t.struct_names key none }
        else t
      if name.startsWith "enum_" then
        { t with enum_names := tblAssign t.enum_names name none }
      else t)
    t

/-- depend (dependencies.py lines 33-43): look `key` up; on a hit add a
requirement edge when the table value is a real description (linked seeds are
None and create no edge); the Bool reports whether the key was found. -/
def depend {K : Type} [DecidableEq K] (st : Store) (tbl : List (K × Option Nat))
    (dIdx : Nat) (key : K) : Store × Bool :=
  match tblLookup tbl key with
  | none => (st, false)
  | some none => (st, true)
  | some (some r) => (add_requirements st dIdx [r], true)

/-- co_depend (dependencies.py lines 45-59): like depend but also adds the
reverse requirement, returning the found handle. -/
def co_depend (st : Store) (tbl : List (String × Option Nat)) (dIdx : Nat)
    (key : String) : Store × Option Nat :=
  match tblLookup tbl key with
  | none => (st, none)
  | some none => (st, none)
  | some (some r) =>
    (add_requirements (add_requirements st dIdx [r]) r [dIdx], some r)

/-- The `variety` attribute read by the self-reference check (a
StructDescription attribute). -/
def DescData.varietyAttr : DescData → String
  | .structD _ v _ _ _ => v
  | _ => ""

/-- The `tag` attribute read by the self-reference checks. -/
def DescData.tagAttr : DescData → String
  | .structD t _ _ _ _ => t
  | .enumD t _ => t
  | _ => ""

/-- Is the description a MacroDescription, for the isinstance checks. -/
def DescData.isMacroDesc : DescData → Bool
  | .macroD _ _ _ => true
  | _ => false

/-- Is the description an UndefDescription, for the isinstance check. -/
def DescData.isUndefDesc : DescData → Bool
  | .undefD _ => true
  | _ => false

/-- The params attribute of a macro (None elsewhere). -/
def DescData.paramsAttr : DescData → Option (List String)
  | .macroD _ ps _ => ps
  | _ => none

/-- The directly-owned roots of a description, per kind string
(dependencies.py lines 66-85). Kind "struct" and "enum" have no roots; the
member subtree of a struct is traversed under its separate "struct_fields"
entry, through the description's ctype. The source asserts on an unknown kind;
known data never reaches that branch, modelled as no roots. -/
def rootsFor (kind : String) (d : DescData) : List (CType ⊕ Expr) :=
  if kind = "constant" then
    match d with
    | .constantD _ v => [.inr v]
    | _ => []
  else if kind = "struct" then []
  else if kind = "struct_fields" then
    match d with
    | .structD _ _ _ _ ct => [.inl ct]
    | _ => []
  else if kind = "enum" then []
  else if kind = "typedef" then
    match d with
    | .typedefD _ ct => [.inl ct]
    | _ => []
  else if kind = "function" then
    match d with
    | .functionD _ _ rt ats _ => (ats.map .inl) ++ [.inl rt]
    | _ => []
  else if kind = "variable" then
    match d with
    | .variableD _ _ ct => [.inl ct]
    | _ => []
  else if kind = "macro" then
    match d with
    | .macroD _ _ (some e) => [.inr e]
    | _ => []
  else if kind = "undef" then
    match d with
    | .undefD m => [.inr m]
    | _ => []
  else []

/-- The `desc.params and ident in desc.params` test (macro parameters shadow
the identifier namespace). -/
def macroParamShadows (d : DescData) (ident : String) : Bool :=
  match d.paramsAttr with
  | some ps => !ps.isEmpty && ps.contains ident
  | none => false

/-- Collection over all roots of a description (dependencies.py lines 87-95). -/
def collectRoots (kind : String) (dData : DescData) : CollectInfo :=
  (rootsFor kind dData).foldl
    (fun (acc : CollectInfo) root => acc.app (Sum.elim ctypeVisit exprVisit root))
    ({} : CollectInfo)

/-- The struct-reference loop (dependencies.py lines 99-103), threading the
store and the accumulated unresolvable messages. -/
def structRefsLoop (tbl : NameTables) (kind : String) (dData : DescData) (dIdx : Nat)
    (cstructs : List (String × String)) (p : Store × List String) : Store × List String :=
  cstructs.foldl
    (fun (p : Store × List String) cs =>
      if kind = "struct" ∧ dData.varietyAttr = cs.1 ∧ dData.tagAttr = cs.2 then p
      else
        let q := depend p.1 tbl.struct_names dIdx cs
        if q.2 then (q.1, p.2)
        else (q.1, p.2 ++ [cs.1 ++ " " ++ "'" ++ cs.2 ++ "'"]))
    p

/-- The enum-reference loop (dependencies.py lines 105-109). -/
def enumRefsLoop (tbl : NameTables) (kind : String) (dData : DescData) (dIdx : Nat)
    (cenums : List String) (p : Store × List String) : Store × List String :=
  cenums.foldl
    (fun (p : Store × List String) ce =>
      if kind = "enum" ∧ dData.tagAttr = ce then p
      else
        let q := depend p.1 tbl.enum_names dIdx ce
        if q.2 then (q.1, p.2)
        else (q.1, p.2 ++ ["enum " ++ "'" ++ ce ++ "'"]))
    p

/-- The typedef-reference loop (dependencies.py lines 111-113). -/
def typedefRefsLoop (tbl : NameTables) (dIdx : Nat) (ctypedefs : List String)
    (p : Store × List String) : Store × List String :=
  ctypedefs.foldl
    (fun (p : Store × List String) ct =>
      let q := depend p.1 tbl.typedef_names dIdx ct
      if q.2 then (q.1, p.2)
      else (q.1, p.2 ++ ["typedef " ++ "'" ++ ct ++ "'"]))
    p

/-- The `desc.macro` attribute of an UndefDescription (composite default for
other kinds, which never reach the access). -/
def undefMacroRef : DescData → Expr
  | .undefD m => m
  | _ => .constE "" []

/-- One iteration of the identifier loop (dependencies.py lines 115-127):
macro parameters shadow the namespace; an undef (with --include-undefs)
co-depends with the macro of its own name; everything else resolves through
the identifier namespace. -/
def identRefStep (opts : DepOpts) (tbl : NameTables) (dData : DescData) (dIdx : Nat)
    (p : Store × List String) (ident : String) : Store × List String :=
  if macroParamShadows dData ident then p
  else if opts.include_undefs && dData.isUndefDesc then
    let q :=
      if ident = exprIdentName (undefMacroRef dData) then
        co_depend p.1 tbl.ident_names dIdx ident
      else (p.1, none)
    match q.2 with
    | some r =>
      if (getDesc q.1 r).data.isMacroDesc then (q.1, p.2)
      else (q.1, p.2 ++ ["identifier " ++ "'" ++ ident ++ "'"])
    | none => (q.1, p.2 ++ ["identifier " ++ "'" ++ ident ++ "'"])
  else
    let q := depend p.1 tbl.ident_names dIdx ident
    if q.2 then (q.1, p.2)
    else (q.1, p.2 ++ ["identifier " ++ "'" ++ ident ++ "'"])

/-- The identifier loop (dependencies.py lines 115-127). -/
def identRefsLoop (opts : DepOpts) (tbl : NameTables) (dData : DescData) (dIdx : Nat)
    (identifiers : List String) (p : Store × List String) : Store × List String :=
  identifiers.foldl (identRefStep opts tbl dData dIdx) p

/-- The final error-attachment loop (dependencies.py lines 129-134). -/
def attachErrors (dData : DescData) (dIdx : Nat) (errs : List Err) (st : Store) : Store :=
  errs.foldl
    (fun st e =>
      descError st dIdx (e.1 ++ " " ++ dData.casual_name ++ " will not be output") e.2)
    st

/-- find_dependencies_for (dependencies.py lines 61-134): collect the
references of the description's roots, resolve them against the namespaces
(adding edges), and attach one unresolved-reference error per miss plus any
errors collected from the subtree, each suffixed with the will-not-be-output
note. -/
def find_dependencies_for (opts : DepOpts) (tbl : NameTables) (st : Store)
    (kind : String) (dIdx : Nat) : Store :=
  let d := getDesc st dIdx
  let info := collectRoots kind d.data
  let p := structRefsLoop tbl kind d.data dIdx info.cstructs (st, [])
  let p := enumRefsLoop tbl kind d.data dIdx info.cenums p
  let p := typedefRefsLoop tbl dIdx info.ctypedefs p
  let p := identRefsLoop opts tbl d.data dIdx info.identifiers p
  let errs := info.errs ++ p.2.map
    (fun u => ((d.data.casual_name ++ " depends on an unknown " ++ u ++ ".", none) : Err))
  attachErrors d.data dIdx errs p.1

/-- add_to_lookup_table (dependencies.py lines 136-153): register the
description under its kind's namespace, first writer winning; undef and
struct_fields entries register nothing. -/
def add_to_lookup_table (tbl : NameTables) (st : Store) (kind : String) (dIdx : Nat) :
    NameTables :=
  let d := (getDesc st dIdx).data
  if kind = "struct" then
    { tbl with struct_names :=
        tblSetIfAbsent tbl.struct_names (d.varietyAttr, d.tagAttr) (some dIdx) }
  else if kind = "enum" then
    { tbl with enum_names := tblSetIfAbsent tbl.enum_names d.tagAttr (some dIdx) }
  else if kind = "typedef" then
    { tbl with typedef_names := tblSetIfAbsent tbl.typedef_names d.nameAttr (some dIdx) }
  else if kind = "function" ∨ kind = "constant" ∨ kind = "variable" ∨ kind = "macro" then
    { tbl with ident_names := tblSetIfAbsent tbl.ident_names d.nameAttr (some dIdx) }
  else tbl

/-- find_dependencies (dependencies.py lines 10-165): seed the namespaces from
linked symbols, then walk output_order registering every entry and extracting
dependencies for the non-macro entries as they come, buffering macros; finally
extract dependencies for the buffered macros against the completed namespaces. -/
def dep_phase1_step (opts : DepOpts) (acc : NameTables × Store × List Nat)
    (kd : String × Nat) : NameTables × Store × List Nat :=
  let tbl := add_to_lookup_table acc.1 acc.2.1 kd.1 kd.2
  if kd.1 = "macro" then (tbl, acc.2.1, acc.2.2 ++ [kd.2])
  else (tbl, find_dependencies_for opts tbl acc.2.1 kd.1 kd.2, acc.2.2)

def find_dependencies (opts : DepOpts) (data : DescriptionCollection) :
    DescriptionCollection :=
  let t0 := seedLinked opts.linked_symbols {}
  let acc := data.output_order.foldl (dep_phase1_step opts) (t0, data.store, [])
  let st := acc.2.2.foldl (fun st m => find_dependencies_for opts acc.1 st "macro" m) acc.2.1
  { data with store := st }

end Ctypesgen

namespace Ctypesgen

/-- The CtypesStruct node of `struct Node { struct Node *next; }`: the struct
type with one member, a pointer whose destination is the opaque reference to
the same tag. -/
def nodeCType : CType :=
  .structT "Node" "struct"
    (some [("next", .pointer (some (.structT "Node" "struct" none [])) [])]) []

/-- Its StructDescription. -/
def nodeStore : Store :=
  [ { data := .structD "Node" "struct"
        (some [("next", .pointer (some (.structT "Node" "struct" none [])) [])])
        false nodeCType } ]

/-- Its collection: the parser emits a ("struct", d) entry followed by a
("struct_fields", d) entry for a transparent struct
(datacollectingparser.handle_struct). -/
def nodeData : DescriptionCollection :=
  { store := nodeStore, structs := [0], all := [0],
    output_order := [("struct", 0), ("struct_fields", 0)] }

/-- Claim C7 (code bug, dependencies.py lines 66-103): the self-reference skip
at line 100 tests `kind == "struct"`, but entries of kind "struct" have an
empty root list (line 69), so the check can never fire; the struct's own tag is
collected only while processing its "struct_fields" entry (roots = [desc.ctype],
whose visit reports the struct itself), where the skip does not apply. For
`struct Node { struct Node *next; }` find_dependencies therefore records a
self requirement edge (and the mirrored self dependent), although it still
records no unresolved-reference error and later traversals still terminate. -/
theorem find_dependencies_self_edge :
    0 ∈ (getDesc (find_dependencies {} nodeData).store 0).requirements ∧
    0 ∈ (getDesc (find_dependencies {} nodeData).store 0).dependents ∧
    (getDesc (find_dependencies {} nodeData).store 0).errors = [] ∧
    ("struct", "Node") ∈ (ctypeVisit nodeCType).cstructs :=
  ⟨by decide, by decide, rfl, by decide⟩

end Ctypesgen

namespace Ctypesgen

/-! ### The requirements/dependents mirror invariant (C8) -/

/-- The mirror invariant of descriptions.py (lines 38-40): for descriptions D
and R, R is in D.requirements exactly when D is in R.dependents. -/
def Mirror (st : Store) : Prop :=
  ∀ d, d < st.length → ∀ r, r < st.length →
    (r ∈ (getDesc st d).requirements ↔ d ∈ (getDesc st r).dependents)

instance (st : Store) : Decidable (Mirror st) := by
  unfold Mirror
  infer_instance

theorem mem_setInsert (l : List Nat) (x y : Nat) :
    y ∈ setInsert l x ↔ y ∈ l ∨ y = x := by
  unfold setInsert
  split
  · constructor
    · exact Or.inl
    · rintro (h | rfl)
      · exact h
      · assumption
  · simp [List.mem_append]

theorem mem_foldl_setInsert :
    ∀ (l : List Nat) (base : List Nat) (y : Nat),
      y ∈ l.foldl setInsert base ↔ y ∈ base ∨ y ∈ l := by
  intro l
  induction l with
  | nil => intro base y; simp
  | cons r rest ih =>
    intro base y
    rw [List.foldl_cons, ih, mem_setInsert]
    constructor
    · rintro ((h | rfl) | h)
      · exact Or.inl h
      · exact Or.inr (List.mem_cons_self ..)
      · exact Or.inr (List.mem_cons_of_mem _ h)
    · rintro (h | h)
      · exact Or.inl (Or.inl h)
      · rcases List.mem_cons.mp h with rfl | h
        · exact Or.inl (Or.inr rfl)
        · exact Or.inr h

theorem length_modifyDesc (st : Store) (i : Nat) (f : Desc → Desc) :
    (modifyDesc st i f).length = st.length := List.length_set ..

theorem getDesc_modify_self (st : Store) (i : Nat) (f : Desc → Desc) (h : i < st.length) :
    getDesc (modifyDesc st i f) i = f (getDesc st i) :=
  getD_set_self _ _ st i h

theorem getDesc_modify_ne (st : Store) (i : Nat) (f : Desc → Desc) (j : Nat) (h : i ≠ j) :
    getDesc (modifyDesc st i f) j = getDesc st j :=
  getD_set_ne _ _ st i j h

theorem length_add_requirements (st : Store) (self : Nat) (reqs : List Nat) :
    (add_requirements st self reqs).length = st.length := by
  unfold add_requirements
  have fold_len : ∀ (l : List Nat) (s : Store),
      (l.foldl (fun acc req => modifyDesc acc req
        (fun x => { x with dependents := setInsert x.dependents self })) s).length
        = s.length := by
    intro l
    induction l with
    | nil => intro s; rfl
    | cons r rest ih => intro s; rw [List.foldl_cons, ih, length_modifyDesc]
  rw [fold_len, length_modifyDesc]

theorem dep_fold_requirements (self : Nat) :
    ∀ (l : List Nat) (s : Store) (x : Nat),
      (getDesc (l.foldl (fun acc req => modifyDesc acc req
        (fun y => { y with dependents := setInsert y.dependents self })) s) x).requirements
        = (getDesc s x).requirements := by
  intro l
  induction l with
  | nil => intro s x; rfl
  | cons r rest ih =>
    intro s x
    rw [List.foldl_cons, ih]
    by_cases hrx : r = x
    · subst hrx
      by_cases hr : r < s.length
      · rw [getDesc_modify_self s r _ hr]
      · unfold modifyDesc
        rw [set_oob _ s r (by omega)]
    · rw [getDesc_modify_ne s r _ x hrx]

theorem dep_fold_dependents (self : Nat) :
    ∀ (l : List Nat) (s : Store) (x d' : Nat), (∀ r ∈ l, r < s.length) →
      (d' ∈ (getDesc (l.foldl (fun acc req => modifyDesc acc req
        (fun y => { y with dependents := setInsert y.dependents self })) s) x).dependents
        ↔ d' ∈ (getDesc s x).dependents ∨ (d' = self ∧ x ∈ l)) := by
  intro l
  induction l with
  | nil => intro s x d' _; simp
  | cons r rest ih =>
    intro s x d' hrange
    rw [List.foldl_cons]
    have hr : r < s.length := hrange r (List.mem_cons_self ..)
    have hrange' : ∀ q ∈ rest, q < (modifyDesc s r
        (fun y => { y with dependents := setInsert y.dependents self })).length := by
      intro q hq
      rw [length_modifyDesc]
      exact hrange q (List.mem_cons_of_mem _ hq)
    rw [ih _ x d' hrange']
    by_cases hrx : r = x
    · subst hrx
      rw [getDesc_modify_self s r _ hr]
      show d' ∈ setInsert (getDesc s r).dependents self ∨ _ ↔ _
      rw [mem_setInsert]
      constructor
      · rintro ((h | rfl) | ⟨rfl, h⟩)
        · exact Or.inl h
        · exact Or.inr ⟨rfl, List.mem_cons_self ..⟩
        · exact Or.inr ⟨rfl, List.mem_cons_of_mem _ h⟩
      · rintro (h | ⟨rfl, _⟩)
        · exact Or.inl (Or.inl h)
        · exact Or.inl (Or.inr rfl)
    · rw [getDesc_modify_ne s r _ x hrx]
      constructor
      · rintro (h | ⟨rfl, h⟩)
        · exact Or.inl h
        · exact Or.inr ⟨rfl, List.mem_cons_of_mem _ h⟩
      · rintro (h | ⟨rfl, h⟩)
        · exact Or.inl h
        · rcases List.mem_cons.mp h with rfl | h
          · exact absurd rfl hrx
          · exact Or.inr ⟨rfl, h⟩

theorem add_requirements_mem_req (st : Store) (self : Nat) (reqs : List Nat)
    (hself : self < st.length) (hreqs : ∀ r ∈ reqs, r < st.length) (x r' : Nat) :
    r' ∈ (getDesc (add_requirements st self reqs) x).requirements ↔
      r' ∈ (getDesc st x).requirements ∨ (x = self ∧ r' ∈ reqs) := by
  unfold add_requirements
  rw [dep_fold_requirements]
  by_cases hx : x = self
  · subst hx
    rw [getDesc_modify_self st x _ hself]
    show r' ∈ reqs.foldl setInsert (getDesc st x).requirements ↔ _
    rw [mem_foldl_setInsert]
    simp
  · rw [getDesc_modify_ne st self _ x (fun h => hx h.symm)]
    simp [hx]

end Ctypesgen

namespace Ctypesgen

theorem add_requirements_mem_dep (st : Store) (self : Nat) (reqs : List Nat)
    (hreqs : ∀ r ∈ reqs, r < st.length) (x d' : Nat) :
    d' ∈ (getDesc (add_requirements st self reqs) x).dependents ↔
      d' ∈ (getDesc st x).dependents ∨ (d' = self ∧ x ∈ reqs) := by
  unfold add_requirements
  rw [dep_fold_dependents self reqs _ x d' (by
    intro r hr
    rw [length_modifyDesc]
    exact hreqs r hr)]
  have hdep : ∀ y, (getDesc (modifyDesc st self
      (fun z => { z with requirements := reqs.foldl setInsert z.requirements })) y).dependents
      = (getDesc st y).dependents := by
    intro y
    by_cases hy : self = y
    · subst hy
      by_cases hs : self < st.length
      · rw [getDesc_modify_self st self _ hs]
      · unfold modifyDesc
        rw [set_oob _ st self (by omega)]
    · rw [getDesc_modify_ne st self _ y hy]
  rw [hdep]

theorem add_requirements_mirror (st : Store) (self : Nat) (reqs : List Nat)
    (hm : Mirror st) (hself : self < st.length) (hreqs : ∀ r ∈ reqs, r < st.length) :
    Mirror (add_requirements st self reqs) := by
  intro d hd r hr
  rw [length_add_requirements] at hd hr
  rw [add_requirements_mem_req st self reqs hself hreqs d r,
    add_requirements_mem_dep st self reqs hreqs r d]
  rw [hm d hd r hr]

theorem co_depend_mirror (st : Store) (tbl : List (String × Option Nat)) (dIdx : Nat)
    (key : String) (hm : Mirror st) (hd : dIdx < st.length)
    (htbl : ∀ v, tblLookup tbl key = some (some v) → v < st.length) :
    Mirror (co_depend st tbl dIdx key).1 := by
  unfold co_depend
  cases hq : tblLookup tbl key with
  | none => exact hm
  | some o =>
    cases o with
    | none => exact hm
    | some r =>
      have hr : r < st.length := htbl r hq
      show Mirror (add_requirements (add_requirements st dIdx [r]) r [dIdx])
      have h1 : Mirror (add_requirements st dIdx [r]) :=
        add_requirements_mirror st dIdx [r] hm hd (by
          intro q hqq
          rcases List.mem_cons.mp hqq with rfl | h
          · exact hr
          · simp at h)
      refine add_requirements_mirror _ r [dIdx] h1 ?_ ?_
      · rw [length_add_requirements]; exact hr
      · intro q hqq
        rw [length_add_requirements]
        rcases List.mem_cons.mp hqq with rfl | h
        · exact hd
        · simp at h

/-- Claim C8 (descriptions.py lines 56-59, dependencies.py lines 33-59): the
mirror invariant `R ∈ requirements(D) ↔ D ∈ dependents(R)` is preserved by
add_requirements for every edge it creates, by co_depend (which is two
add_requirements calls), and by any transformation that leaves both edge
columns pointwise unchanged — which covers every other pass, since only
add_requirements ever writes either edge set. -/
theorem mirror_invariant_preserved (st : Store) (self : Nat) (reqs : List Nat)
    (tbl : List (String × Option Nat)) (key : String) (dIdx : Nat)
    (hm : Mirror st) (hself : self < st.length) (hreqs : ∀ r ∈ reqs, r < st.length)
    (hd : dIdx < st.length)
    (htbl : ∀ v, tblLookup tbl key = some (some v) → v < st.length) :
    Mirror (add_requirements st self reqs) ∧
    Mirror (co_depend st tbl dIdx key).1 ∧
    (∀ st' : Store, st'.length = st.length →
      (∀ x, (getDesc st' x).requirements = (getDesc st x).requirements) →
      (∀ x, (getDesc st' x).dependents = (getDesc st x).dependents) →
      Mirror st') := by
  refine ⟨add_requirements_mirror st self reqs hm hself hreqs,
    co_depend_mirror st tbl dIdx key hm hd htbl, ?_⟩
  intro st' hlen hreq hdep
  intro d hdlt r hrlt
  rw [hlen] at hdlt hrlt
  rw [hreq d, hdep r]
  exact hm d hdlt r hrlt

/-- Witness for C8 at a concrete input: a two-description store already
satisfying the mirror invariant, a fresh edge 0 → 1, and a co_depend of
description 0 with the macro at index 1. -/
theorem mirror_invariant_preserved_witness :
    Mirror (add_requirements
      [ { data := .functionD "f" "f" (.simple "void" true 0 []) [] false },
        { data := .macroD "m" none (some (.constE "1" [])) } ] 0 [1]) ∧
    Mirror (co_depend
      [ { data := .functionD "f" "f" (.simple "void" true 0 []) [] false },
        { data := .macroD "m" none (some (.constE "1" [])) } ]
      [("m", some 1)] 0 "m").1 ∧
    (∀ st' : Store, st'.length = ([
        { data := .functionD "f" "f" (.simple "void" true 0 []) [] false },
        { data := .macroD "m" none (some (.constE "1" [])) } ] : Store).length →
      (∀ x, (getDesc st' x).requirements = (getDesc ([
        { data := .functionD "f" "f" (.simple "void" true 0 []) [] false },
        { data := .macroD "m" none (some (.constE "1" [])) } ] : Store) x).requirements) →
      (∀ x, (getDesc st' x).dependents = (getDesc ([
        { data := .functionD "f" "f" (.simple "void" true 0 []) [] false },
        { data := .macroD "m" none (some (.constE "1" [])) } ] : Store) x).dependents) →
      Mirror st') :=
  mirror_invariant_preserved _ 0 [1] [("m", some 1)] "m" 0
    (by decide) (by decide)
    (by decide)
    (by decide)
    (by
      intro v hv
      have h1 : 1 = v := by simpa [tblLookup] using hv
      subst h1
      decide)

end Ctypesgen

namespace Ctypesgen

/-! ### Macro deferral (C6): support lemmas

find_dependencies_for only ever writes the requirements, dependents and errors
attributes, and it appends errors only to the description it is processing.
These preservation lemmas make that precise.
-/

/-- All description attributes except the edge sets and the error list. -/
def descCore (d : Desc) :
    DescData × Option (String × String) × Rule × List Err × Option Bool × Bool :=
  (d.data, d.src, d.include_rule, d.warnings, d.can_include, d.included)

/-- The store transformation keeps length and every non-edge, non-error
attribute of every description. -/
def PreservesCore (a b : Store) : Prop :=
  b.length = a.length ∧ ∀ x, descCore (getDesc b x) = descCore (getDesc a x)

/-- Errors are pointwise unchanged. -/
def ErrEq (a b : Store) : Prop :=
  ∀ x, (getDesc b x).errors = (getDesc a x).errors

theorem PreservesCore.selfPC (a : Store) : PreservesCore a a := ⟨rfl, fun _ => rfl⟩

theorem PreservesCore.transPC {a b c : Store}
    (h₁ : PreservesCore a b) (h₂ : PreservesCore b c) : PreservesCore a c :=
  ⟨h₂.1.trans h₁.1, fun x => (h₂.2 x).trans (h₁.2 x)⟩

theorem ErrEq.selfEE (a : Store) : ErrEq a a := fun _ => rfl

theorem ErrEq.transEE {a b c : Store} (h₁ : ErrEq a b) (h₂ : ErrEq b c) : ErrEq a c :=
  fun x => (h₂ x).trans (h₁ x)

theorem modify_core (st : Store) (i : Nat) (f : Desc → Desc)
    (hf : ∀ d, descCore (f d) = descCore d) : PreservesCore st (modifyDesc st i f) := by
  refine ⟨length_modifyDesc .., ?_⟩
  intro x
  by_cases hx : i = x
  · subst hx
    by_cases hi : i < st.length
    · rw [getDesc_modify_self st i f hi, hf]
    · unfold modifyDesc
      rw [set_oob _ st i (by omega)]
  · rw [getDesc_modify_ne st i f x hx]

theorem modify_errors (st : Store) (i : Nat) (f : Desc → Desc)
    (hf : ∀ d, (f d).errors = d.errors) : ErrEq st (modifyDesc st i f) := by
  intro x
  by_cases hx : i = x
  · subst hx
    by_cases hi : i < st.length
    · rw [getDesc_modify_self st i f hi, hf]
    · unfold modifyDesc
      rw [set_oob _ st i (by omega)]
  · rw [getDesc_modify_ne st i f x hx]

theorem add_requirements_core (st : Store) (self : Nat) (reqs : List Nat) :
    PreservesCore st (add_requirements st self reqs) ∧
    ErrEq st (add_requirements st self reqs) := by
  unfold add_requirements
  have h1 : PreservesCore st (modifyDesc st self
      (fun x => { x with requirements := reqs.foldl setInsert x.requirements })) ∧
      ErrEq st (modifyDesc st self
      (fun x => { x with requirements := reqs.foldl setInsert x.requirements })) :=
    ⟨modify_core st self _ (fun d => rfl), modify_errors st self _ (fun d => rfl)⟩
  have h2 : ∀ (l : List Nat) (s : Store),
      PreservesCore s (l.foldl (fun acc req => modifyDesc acc req
        (fun y => { y with dependents := setInsert y.dependents self })) s) ∧
      ErrEq s (l.foldl (fun acc req => modifyDesc acc req
        (fun y => { y with dependents := setInsert y.dependents self })) s) := by
    intro l
    induction l with
    | nil => intro s; exact ⟨PreservesCore.selfPC s, ErrEq.selfEE s⟩
    | cons r rest ih =>
      intro s
      rw [List.foldl_cons]
      rcases ih (modifyDesc s r
        (fun y => { y with dependents := setInsert y.dependents self })) with ⟨hc, he⟩
      exact ⟨(modify_core s r
          (fun y => { y with dependents := setInsert y.dependents self })
          (fun d => rfl)).transPC hc,
        (modify_errors s r
          (fun y => { y with dependents := setInsert y.dependents self })
          (fun d => rfl)).transEE he⟩
  rcases h2 reqs (modifyDesc st self
    (fun x => { x with requirements := reqs.foldl setInsert x.requirements })) with ⟨hc, he⟩
  exact ⟨h1.1.transPC hc, h1.2.transEE he⟩

theorem depend_core {K : Type} [DecidableEq K] (st : Store) (tbl : List (K × Option Nat))
    (dIdx : Nat) (key : K) :
    PreservesCore st (depend st tbl dIdx key).1 ∧ ErrEq st (depend st tbl dIdx key).1 := by
  unfold depend
  cases tblLookup tbl key with
  | none => exact ⟨PreservesCore.selfPC st, ErrEq.selfEE st⟩
  | some o =>
    cases o with
    | none => exact ⟨PreservesCore.selfPC st, ErrEq.selfEE st⟩
    | some r => exact add_requirements_core st dIdx [r]

theorem co_depend_core (st : Store) (tbl : List (String × Option Nat)) (dIdx : Nat)
    (key : String) :
    PreservesCore st (co_depend st tbl dIdx key).1 ∧ ErrEq st (co_depend st tbl dIdx key).1 := by
  unfold co_depend
  cases tblLookup tbl key with
  | none => exact ⟨PreservesCore.selfPC st, ErrEq.selfEE st⟩
  | some o =>
    cases o with
    | none => exact ⟨PreservesCore.selfPC st, ErrEq.selfEE st⟩
    | some r =>
      rcases add_requirements_core st dIdx [r] with ⟨h1, e1⟩
      rcases add_requirements_core (add_requirements st dIdx [r]) r [dIdx] with ⟨h2, e2⟩
      exact ⟨h1.transPC h2, e1.transEE e2⟩

theorem descError_core (st : Store) (i : Nat) (msg : String) (cls : Option String) :
    PreservesCore st (descError st i msg cls) ∧
    (∀ x, x ≠ i → (getDesc (descError st i msg cls) x).errors = (getDesc st x).errors) := by
  unfold descError
  constructor
  · exact modify_core st i _ (fun d => rfl)
  · intro x hx
    rw [getDesc_modify_ne st i _ x (fun h => hx h.symm)]

end Ctypesgen

namespace Ctypesgen

theorem fold_pair_preserves {γ : Type} (g : Store × List String → γ → Store × List String)
    (hg : ∀ p c, PreservesCore p.1 (g p c).1 ∧ ErrEq p.1 (g p c).1) :
    ∀ (l : List γ) (p : Store × List String),
      PreservesCore p.1 (l.foldl g p).1 ∧ ErrEq p.1 (l.foldl g p).1 := by
  intro l
  induction l with
  | nil => intro p; exact ⟨PreservesCore.selfPC _, ErrEq.selfEE _⟩
  | cons c rest ih =>
    intro p
    rw [List.foldl_cons]
    rcases ih (g p c) with ⟨hc, he⟩
    rcases hg p c with ⟨hc0, he0⟩
    exact ⟨hc0.transPC hc, he0.transEE he⟩

theorem structRefsLoop_preserves (tbl : NameTables) (kind : String) (dData : DescData)
    (dIdx : Nat) (l : List (String × String)) (p : Store × List String) :
    PreservesCore p.1 (structRefsLoop tbl kind dData dIdx l p).1 ∧
    ErrEq p.1 (structRefsLoop tbl kind dData dIdx l p).1 := by
  refine fold_pair_preserves _ ?_ l p
  intro p cs
  dsimp only
  split
  · exact ⟨PreservesCore.selfPC _, ErrEq.selfEE _⟩
  · rcases depend_core p.1 tbl.struct_names dIdx cs with ⟨hc, he⟩
    split
    · exact ⟨hc, he⟩
    · exact ⟨hc, he⟩

theorem enumRefsLoop_preserves (tbl : NameTables) (kind : String) (dData : DescData)
    (dIdx : Nat) (l : List String) (p : Store × List String) :
    PreservesCore p.1 (enumRefsLoop tbl kind dData dIdx l p).1 ∧
    ErrEq p.1 (enumRefsLoop tbl kind dData dIdx l p).1 := by
  refine fold_pair_preserves _ ?_ l p
  intro p ce
  dsimp only
  split
  · exact ⟨PreservesCore.selfPC _, ErrEq.selfEE _⟩
  · rcases depend_core p.1 tbl.enum_names dIdx ce with ⟨hc, he⟩
    split
    · exact ⟨hc, he⟩
    · exact ⟨hc, he⟩

theorem typedefRefsLoop_preserves (tbl : NameTables) (dIdx : Nat) (l : List String)
    (p : Store × List String) :
    PreservesCore p.1 (typedefRefsLoop tbl dIdx l p).1 ∧
    ErrEq p.1 (typedefRefsLoop tbl dIdx l p).1 := by
  refine fold_pair_preserves _ ?_ l p
  intro p ct
  dsimp only
  rcases depend_core p.1 tbl.typedef_names dIdx ct with ⟨hc, he⟩
  split
  · exact ⟨hc, he⟩
  · exact ⟨hc, he⟩

theorem identRefStep_preserves (opts : DepOpts) (tbl : NameTables) (dData : DescData)
    (dIdx : Nat) (p : Store × List String) (ident : String) :
    PreservesCore p.1 (identRefStep opts tbl dData dIdx p ident).1 ∧
    ErrEq p.1 (identRefStep opts tbl dData dIdx p ident).1 := by
  unfold identRefStep
  split
  · exact ⟨PreservesCore.selfPC _, ErrEq.selfEE _⟩
  · split
    · by_cases hid : ident = exprIdentName (undefMacroRef dData)
      · rw [if_pos hid]
        rcases hco : co_depend p.1 tbl.ident_names dIdx ident with ⟨st', res⟩
        have hst' : PreservesCore p.1 st' ∧ ErrEq p.1 st' := by
          rcases co_depend_core p.1 tbl.ident_names dIdx ident with ⟨hc, he⟩
          rw [hco] at hc he
          exact ⟨hc, he⟩
        cases res with
        | some r =>
          dsimp only
          split
          · exact hst'
          · exact hst'
        | none => exact hst'
      · rw [if_neg hid]
        exact ⟨PreservesCore.selfPC _, ErrEq.selfEE _⟩
    · rcases depend_core p.1 tbl.ident_names dIdx ident with ⟨hc, he⟩
      dsimp only
      split
      · exact ⟨hc, he⟩
      · exact ⟨hc, he⟩

theorem identRefsLoop_preserves (opts : DepOpts) (tbl : NameTables) (dData : DescData)
    (dIdx : Nat) (l : List String) (p : Store × List String) :
    PreservesCore p.1 (identRefsLoop opts tbl dData dIdx l p).1 ∧
    ErrEq p.1 (identRefsLoop opts tbl dData dIdx l p).1 :=
  fold_pair_preserves _ (fun p c => identRefStep_preserves opts tbl dData dIdx p c) l p

theorem attachErrors_preserves (dData : DescData) (dIdx : Nat) (errs : List Err) (st : Store) :
    PreservesCore st (attachErrors dData dIdx errs st) ∧
    (∀ x, x ≠ dIdx → (getDesc (attachErrors dData dIdx errs st) x).errors
      = (getDesc st x).errors) := by
  unfold attachErrors
  induction errs generalizing st with
  | nil => exact ⟨PreservesCore.selfPC _, fun x _ => rfl⟩
  | cons e rest ih =>
    rw [List.foldl_cons]
    rcases ih (descError st dIdx (e.1 ++ " " ++ dData.casual_name ++ " will not be output") e.2)
      with ⟨hc, he⟩
    rcases descError_core st dIdx
      (e.1 ++ " " ++ dData.casual_name ++ " will not be output") e.2 with ⟨hc0, he0⟩
    refine ⟨hc0.transPC hc, ?_⟩
    intro x hx
    rw [he x hx, he0 x hx]

theorem find_dependencies_for_preserves (opts : DepOpts) (tbl : NameTables) (st : Store)
    (kind : String) (dIdx : Nat) :
    PreservesCore st (find_dependencies_for opts tbl st kind dIdx) ∧
    (∀ x, x ≠ dIdx → (getDesc (find_dependencies_for opts tbl st kind dIdx) x).errors
      = (getDesc st x).errors) := by
  have h1 := structRefsLoop_preserves tbl kind (getDesc st dIdx).data dIdx
    (collectRoots kind (getDesc st dIdx).data).cstructs (st, [])
  have h2 := enumRefsLoop_preserves tbl kind (getDesc st dIdx).data dIdx
    (collectRoots kind (getDesc st dIdx).data).cenums
    (structRefsLoop tbl kind (getDesc st dIdx).data dIdx
      (collectRoots kind (getDesc st dIdx).data).cstructs (st, []))
  have h3 := typedefRefsLoop_preserves tbl dIdx
    (collectRoots kind (getDesc st dIdx).data).ctypedefs
    (enumRefsLoop tbl kind (getDesc st dIdx).data dIdx
      (collectRoots kind (getDesc st dIdx).data).cenums
      (structRefsLoop tbl kind (getDesc st dIdx).data dIdx
        (collectRoots kind (getDesc st dIdx).data).cstructs (st, [])))
  have h4 := identRefsLoop_preserves opts tbl (getDesc st dIdx).data dIdx
    (collectRoots kind (getDesc st dIdx).data).identifiers
    (typedefRefsLoop tbl dIdx
      (collectRoots kind (getDesc st dIdx).data).ctypedefs
      (enumRefsLoop tbl kind (getDesc st dIdx).data dIdx
        (collectRoots kind (getDesc st dIdx).data).cenums
        (structRefsLoop tbl kind (getDesc st dIdx).data dIdx
          (collectRoots kind (getDesc st dIdx).data).cstructs (st, []))))
  have h5 := attachErrors_preserves (getDesc st dIdx).data dIdx
    ((collectRoots kind (getDesc st dIdx).data).errs ++
      (identRefsLoop opts tbl (getDesc st dIdx).data dIdx
        (collectRoots kind (getDesc st dIdx).data).identifiers
        (typedefRefsLoop tbl dIdx
          (collectRoots kind (getDesc st dIdx).data).ctypedefs
          (enumRefsLoop tbl kind (getDesc st dIdx).data dIdx
            (collectRoots kind (getDesc st dIdx).data).cenums
            (structRefsLoop tbl kind (getDesc st dIdx).data dIdx
              (collectRoots kind (getDesc st dIdx).data).cstructs (st, []))))).2.map
        (fun u => (((getDesc st dIdx).data.casual_name ++ " depends on an unknown " ++ u
          ++ ".", none) : Err)))
    (identRefsLoop opts tbl (getDesc st dIdx).data dIdx
      (collectRoots kind (getDesc st dIdx).data).identifiers
      (typedefRefsLoop tbl dIdx
        (collectRoots kind (getDesc st dIdx).data).ctypedefs
        (enumRefsLoop tbl kind (getDesc st dIdx).data dIdx
          (collectRoots kind (getDesc st dIdx).data).cenums
          (structRefsLoop tbl kind (getDesc st dIdx).data dIdx
            (collectRoots kind (getDesc st dIdx).data).cstructs (st, []))))).1
  refine ⟨(((h1.1.transPC h2.1).transPC h3.1).transPC h4.1).transPC h5.1, ?_⟩
  intro x hx
  exact (h5.2 x hx).trans ((h4.2 x).trans ((h3.2 x).trans ((h2.2 x).trans (h1.2 x))))

end Ctypesgen

namespace Ctypesgen

/-- The four kinds that register in the flat identifier namespace. -/
def identKindB (k : String) : Bool :=
  k = "function" || k = "constant" || k = "variable" || k = "macro"

theorem tblLookup_cons {K : Type} [DecidableEq K] (k : K) (v : Option Nat)
    (m : List (K × Option Nat)) (x : K) :
    tblLookup ((k, v) :: m) x = if k = x then some v else tblLookup m x := by
  unfold tblLookup
  by_cases h : k = x
  · simp [List.find?, h]
  · simp [List.find?, h]

theorem tblSetIfAbsent_isSome_self {K : Type} [DecidableEq K]
    (m : List (K × Option Nat)) (k : K) (v : Option Nat) :
    (tblLookup (tblSetIfAbsent m k v) k).isSome := by
  unfold tblSetIfAbsent
  split
  · assumption
  · rw [tblLookup_cons]
    simp

theorem tblSetIfAbsent_isSome_mono {K : Type} [DecidableEq K]
    (m : List (K × Option Nat)) (k : K) (v : Option Nat) (x : K)
    (h : (tblLookup m x).isSome) : (tblLookup (tblSetIfAbsent m k v) x).isSome := by
  unfold tblSetIfAbsent
  split
  · exact h
  · rw [tblLookup_cons]
    split
    · simp
    · exact h

theorem add_to_lookup_table_ident_mono (t : NameTables) (st : Store) (k : String) (i : Nat)
    (x : String) (h : (tblLookup t.ident_names x).isSome) :
    (tblLookup (add_to_lookup_table t st k i).ident_names x).isSome := by
  unfold add_to_lookup_table
  split
  · exact h
  · split
    · exact h
    · split
      · exact h
      · split
        · exact tblSetIfAbsent_isSome_mono _ _ _ _ h
        · exact h

theorem add_to_lookup_table_registers (t : NameTables) (st : Store) (kd : String × Nat)
    (x : String) (hk : identKindB kd.1 = true)
    (hn : (getDesc st kd.2).data.nameAttr = x) :
    (tblLookup (add_to_lookup_table t st kd.1 kd.2).ident_names x).isSome := by
  unfold identKindB at hk
  unfold add_to_lookup_table
  have hks : kd.1 = "function" ∨ kd.1 = "constant" ∨ kd.1 = "variable" ∨ kd.1 = "macro" := by
    rcases Bool.or_eq_true_iff.mp hk with h | h
    · rcases Bool.or_eq_true_iff.mp h with h | h
      · rcases Bool.or_eq_true_iff.mp h with h | h
        · exact Or.inl (by exact of_decide_eq_true h)
        · exact Or.inr (Or.inl (by exact of_decide_eq_true h))
      · exact Or.inr (Or.inr (Or.inl (by exact of_decide_eq_true h)))
    · exact Or.inr (Or.inr (Or.inr (by exact of_decide_eq_true h)))
  split
  · rename_i hs
    rcases hks with h | h | h | h <;> rw [h] at hs <;> simp at hs
  · split
    · rename_i hs
      rcases hks with h | h | h | h <;> rw [h] at hs <;> simp at hs
    · split
      · rename_i hs
        rcases hks with h | h | h | h <;> rw [h] at hs <;> simp at hs
      · show (tblLookup (tblSetIfAbsent t.ident_names
            (getDesc st kd.2).data.nameAttr (some kd.2)) x).isSome = true
        rw [hn]
        exact tblSetIfAbsent_isSome_self ..

theorem add_to_lookup_table_congr (t : NameTables) (st st₀ : Store) (k : String) (i : Nat)
    (h : descCore (getDesc st i) = descCore (getDesc st₀ i)) :
    add_to_lookup_table t st k i = add_to_lookup_table t st₀ k i := by
  have hdata : (getDesc st i).data = (getDesc st₀ i).data := congrArg Prod.fst h
  unfold add_to_lookup_table
  rw [hdata]

end Ctypesgen

namespace Ctypesgen

theorem dep_phase1_step_eq (opts : DepOpts) (acc : NameTables × Store × List Nat)
    (kd : String × Nat) :
    dep_phase1_step opts acc kd =
      if kd.1 = "macro" then
        (add_to_lookup_table acc.1 acc.2.1 kd.1 kd.2, acc.2.1, acc.2.2 ++ [kd.2])
      else
        (add_to_lookup_table acc.1 acc.2.1 kd.1 kd.2,
         find_dependencies_for opts (add_to_lookup_table acc.1 acc.2.1 kd.1 kd.2)
           acc.2.1 kd.1 kd.2,
         acc.2.2) := by
  unfold dep_phase1_step
  split <;> rfl

theorem phase1_spec (opts : DepOpts) (st₀ : Store) :
    ∀ (order : List (String × Nat)) (tbl : NameTables) (st : Store) (buf : List Nat),
      PreservesCore st₀ st →
      PreservesCore st₀ (order.foldl (dep_phase1_step opts) (tbl, st, buf)).2.1 ∧
      (order.foldl (dep_phase1_step opts) (tbl, st, buf)).1 =
        order.foldl (fun t kd => add_to_lookup_table t st₀ kd.1 kd.2) tbl ∧
      (order.foldl (dep_phase1_step opts) (tbl, st, buf)).2.2 =
        buf ++ (order.filter (fun kd => kd.1 = "macro")).map (·.2) := by
  intro order
  induction order with
  | nil =>
    intro tbl st buf h
    exact ⟨h, rfl, by simp⟩
  | cons kd rest ih =>
    intro tbl st buf h
    rw [List.foldl_cons, List.foldl_cons, dep_phase1_step_eq]
    have htbl : add_to_lookup_table tbl st kd.1 kd.2 = add_to_lookup_table tbl st₀ kd.1 kd.2 :=
      add_to_lookup_table_congr tbl st st₀ kd.1 kd.2 (h.2 kd.2)
    by_cases hmac : kd.1 = "macro"
    · rw [if_pos hmac]
      rcases ih (add_to_lookup_table tbl st kd.1 kd.2) st (buf ++ [kd.2]) h with ⟨hc, ht, hb⟩
      refine ⟨hc, by rw [ht, htbl], ?_⟩
      rw [hb, List.filter_cons, if_pos (by simpa using hmac)]
      simp
    · rw [if_neg hmac]
      rcases ih (add_to_lookup_table tbl st kd.1 kd.2)
        (find_dependencies_for opts (add_to_lookup_table tbl st kd.1 kd.2) st kd.1 kd.2) buf
        (h.transPC (find_dependencies_for_preserves ..).1) with ⟨hc, ht, hb⟩
      refine ⟨hc, by rw [ht, htbl], ?_⟩
      rw [hb, List.filter_cons, if_neg (by simpa using hmac)]

theorem pure_fold_ident_isSome (st₀ : Store) (x : String) :
    ∀ (order : List (String × Nat)) (tbl : NameTables),
      ((∃ kd ∈ order, identKindB kd.1 = true ∧ (getDesc st₀ kd.2).data.nameAttr = x) ∨
        (tblLookup tbl.ident_names x).isSome) →
      (tblLookup (order.foldl (fun t kd => add_to_lookup_table t st₀ kd.1 kd.2)
        tbl).ident_names x).isSome := by
  intro order
  induction order with
  | nil =>
    intro tbl h
    rcases h with ⟨kd, hmem, _⟩ | h
    · simp at hmem
    · exact h
  | cons kd rest ih =>
    intro tbl h
    rw [List.foldl_cons]
    rcases h with ⟨kd', hmem, hk, hn⟩ | h
    · rcases List.mem_cons.mp hmem with rfl | hmem'
      · exact ih _ (Or.inr (add_to_lookup_table_registers tbl st₀ kd' x hk hn))
      · exact ih _ (Or.inl ⟨kd', hmem', hk, hn⟩)
    · exact ih _ (Or.inr (add_to_lookup_table_ident_mono tbl st₀ kd.1 kd.2 x h))

theorem phase1_errors_at (opts : DepOpts) (i : Nat) :
    ∀ (order : List (String × Nat)) (tbl : NameTables) (st : Store) (buf : List Nat),
      (∀ kd ∈ order, kd.2 = i → kd.1 = "macro") →
      (getDesc (order.foldl (dep_phase1_step opts) (tbl, st, buf)).2.1 i).errors =
        (getDesc st i).errors := by
  intro order
  induction order with
  | nil => intro tbl st buf _; rfl
  | cons kd rest ih =>
    intro tbl st buf honly
    rw [List.foldl_cons, dep_phase1_step_eq]
    by_cases hmac : kd.1 = "macro"
    · rw [if_pos hmac]
      exact ih _ _ _ (fun kd' h' => honly kd' (List.mem_cons_of_mem _ h'))
    · rw [if_neg hmac]
      rw [ih _ _ _ (fun kd' h' => honly kd' (List.mem_cons_of_mem _ h'))]
      refine (find_dependencies_for_preserves ..).2 i ?_
      intro hk
      exact hmac (honly kd (List.mem_cons_self ..) hk.symm)

theorem depend_found {K : Type} [DecidableEq K] (st : Store) (tbl : List (K × Option Nat))
    (dIdx : Nat) (key : K) (h : (tblLookup tbl key).isSome) :
    (depend st tbl dIdx key).2 = true := by
  unfold depend
  cases hq : tblLookup tbl key with
  | none => rw [hq] at h; simp at h
  | some o => cases o <;> rfl

theorem identRefsLoop_resolved (opts : DepOpts) (tbl : NameTables) (dData : DescData)
    (dIdx : Nat) (hund : dData.isUndefDesc = false) (hpar : dData.paramsAttr = none) :
    ∀ (l : List String) (st : Store) (u : List String),
      (∀ x ∈ l, (tblLookup tbl.ident_names x).isSome) →
      (identRefsLoop opts tbl dData dIdx l (st, u)).2 = u := by
  intro l
  induction l with
  | nil => intro st u _; rfl
  | cons ident rest ih =>
    intro st u hres
    have hshadow : macroParamShadows dData ident = false := by
      unfold macroParamShadows
      rw [hpar]
    have hb : (opts.include_undefs && dData.isUndefDesc) = false := by
      rw [hund, Bool.and_false]
    have hfound := depend_found st tbl.ident_names dIdx ident
      (hres ident (List.mem_cons_self ..))
    have hstep : identRefStep opts tbl dData dIdx (st, u) ident =
        ((depend st tbl.ident_names dIdx ident).1, u) := by
      unfold identRefStep
      simp only [hshadow, hb, Bool.false_eq_true, if_false, hfound, if_true]
    show (identRefsLoop opts tbl dData dIdx (ident :: rest) (st, u)).2 = u
    unfold identRefsLoop
    rw [List.foldl_cons, hstep]
    exact ih _ u (fun x hx => hres x (List.mem_cons_of_mem _ hx))

end Ctypesgen

namespace Ctypesgen

theorem find_dependencies_for_macro_errors (opts : DepOpts) (tbl : NameTables) (st : Store)
    (i : Nat) (name : String) (body : Expr)
    (hdata : (getDesc st i).data = .macroD name none (some body))
    (hpure : (exprVisit body).cstructs = [] ∧ (exprVisit body).cenums = [] ∧
      (exprVisit body).ctypedefs = [] ∧ (exprVisit body).errs = [])
    (hres : ∀ x ∈ (exprVisit body).identifiers, (tblLookup tbl.ident_names x).isSome) :
    ErrEq st (find_dependencies_for opts tbl st "macro" i) := by
  have e1 : collectRoots "macro" (getDesc st i).data = CollectInfo.app {} (exprVisit body) := by
    rw [hdata]
    rfl
  have hcs : (CollectInfo.app {} (exprVisit body)).cstructs = [] := by
    show [] ++ (exprVisit body).cstructs = []
    rw [List.nil_append, hpure.1]
  have hce : (CollectInfo.app {} (exprVisit body)).cenums = [] := by
    show [] ++ (exprVisit body).cenums = []
    rw [List.nil_append, hpure.2.1]
  have hct : (CollectInfo.app {} (exprVisit body)).ctypedefs = [] := by
    show [] ++ (exprVisit body).ctypedefs = []
    rw [List.nil_append, hpure.2.2.1]
  have herr : (CollectInfo.app {} (exprVisit body)).errs = [] := by
    show [] ++ (exprVisit body).errs = []
    rw [List.nil_append, hpure.2.2.2]
  have hidf : (CollectInfo.app {} (exprVisit body)).identifiers =
      (exprVisit body).identifiers := by
    show [] ++ (exprVisit body).identifiers = _
    rw [List.nil_append]
  have hund : (getDesc st i).data.isUndefDesc = false := by rw [hdata]; rfl
  have hpar : (getDesc st i).data.paramsAttr = none := by rw [hdata]; rfl
  have key : find_dependencies_for opts tbl st "macro" i =
      (identRefsLoop opts tbl (getDesc st i).data i (exprVisit body).identifiers (st, [])).1 := by
    unfold find_dependencies_for
    dsimp only
    rw [e1, hcs, hce, hct, herr, hidf]
    simp only [structRefsLoop, enumRefsLoop, typedefRefsLoop, List.foldl_nil]
    rw [identRefsLoop_resolved opts tbl (getDesc st i).data i hund hpar
      (exprVisit body).identifiers st [] hres]
    simp only [List.map_nil, List.append_nil, attachErrors, List.foldl_nil]
  rw [key]
  exact (identRefsLoop_preserves opts tbl (getDesc st i).data i
    (exprVisit body).identifiers (st, [])).2

/-- Claim C6 (dependencies.py lines 155-165): find_dependencies registers
every description — macros included — in the name lookup tables during its
first walk of output_order and buffers macros, extracting their dependencies
only after every non-macro description has been processed in declaration
order; consequently a macro whose body references an identifier that any
identifier-kind description anywhere in output_order (even later in source
order, e.g. a macro defined after it) provides, resolves without an
unresolved-reference error: its error list is left untouched. -/
theorem find_dependencies_macro_deferred (opts : DepOpts) (data : DescriptionCollection)
    (i : Nat) (name : String) (body : Expr)
    (hdata : (getDesc data.store i).data = .macroD name none (some body))
    (honly : ∀ kd ∈ data.output_order, kd.2 = i → kd.1 = "macro")
    (hpure : (exprVisit body).cstructs = [] ∧ (exprVisit body).cenums = [] ∧
      (exprVisit body).ctypedefs = [] ∧ (exprVisit body).errs = [])
    (hresolve : ∀ x ∈ (exprVisit body).identifiers,
      ∃ kd ∈ data.output_order, identKindB kd.1 = true ∧
        (getDesc data.store kd.2).data.nameAttr = x) :
    (getDesc (find_dependencies opts data).store i).errors =
      (getDesc data.store i).errors := by
  have hdef : (find_dependencies opts data).store =
      (data.output_order.foldl (dep_phase1_step opts)
        (seedLinked opts.linked_symbols {}, data.store, [])).2.2.foldl
        (fun st m => find_dependencies_for opts
          (data.output_order.foldl (dep_phase1_step opts)
            (seedLinked opts.linked_symbols {}, data.store, [])).1 st "macro" m)
        (data.output_order.foldl (dep_phase1_step opts)
          (seedLinked opts.linked_symbols {}, data.store, [])).2.1 := rfl
  rw [hdef]
  rcases phase1_spec opts data.store data.output_order (seedLinked opts.linked_symbols {})
    data.store [] (PreservesCore.selfPC _) with ⟨hc, ht, _⟩
  have herr1 := phase1_errors_at opts i data.output_order (seedLinked opts.linked_symbols {})
    data.store [] honly
  have htbls : ∀ x ∈ (exprVisit body).identifiers,
      (tblLookup (data.output_order.foldl (dep_phase1_step opts)
        (seedLinked opts.linked_symbols {}, data.store, [])).1.ident_names x).isSome := by
    intro x hx
    rw [ht]
    exact pure_fold_ident_isSome data.store x data.output_order _ (Or.inl (hresolve x hx))
  have hstep : ∀ (s : Store) (m : Nat),
      (PreservesCore data.store s ∧
        (getDesc s i).errors = (getDesc data.store i).errors) →
      (PreservesCore data.store (find_dependencies_for opts
        (data.output_order.foldl (dep_phase1_step opts)
          (seedLinked opts.linked_symbols {}, data.store, [])).1 s "macro" m) ∧
        (getDesc (find_dependencies_for opts
          (data.output_order.foldl (dep_phase1_step opts)
            (seedLinked opts.linked_symbols {}, data.store, [])).1 s "macro" m) i).errors =
          (getDesc data.store i).errors) := by
    intro s m hP
    refine ⟨hP.1.transPC (find_dependencies_for_preserves ..).1, ?_⟩
    by_cases hmi : m = i
    · subst hmi
      have hdata' : (getDesc s m).data = .macroD name none (some body) := by
        have := hP.1.2 m
        have hfst : (getDesc s m).data = (getDesc data.store m).data := congrArg Prod.fst this
        rw [hfst, hdata]
      rw [find_dependencies_for_macro_errors opts _ s m name body hdata' hpure htbls m]
      exact hP.2
    · rw [(find_dependencies_for_preserves ..).2 i (fun h => hmi h.symm)]
      exact hP.2
  have hfold := foldl_preserve_mem
    (P := fun s : Store => PreservesCore data.store s ∧
      (getDesc s i).errors = (getDesc data.store i).errors)
    (data.output_order.foldl (dep_phase1_step opts)
      (seedLinked opts.linked_symbols {}, data.store, [])).2.2
    (data.output_order.foldl (dep_phase1_step opts)
      (seedLinked opts.linked_symbols {}, data.store, [])).2.1
    (fun s m _ hP => hstep s m hP) ⟨hc, herr1⟩
  exact hfold.2

end Ctypesgen

namespace Ctypesgen

/-- Macros `#define M2 (M1+1)` and `#define M1 5`, M2 first in source order,
so M2's body references an identifier registered only later. -/
def m2Store : Store :=
  [ { data := .macroD "M2" none (some (.binE (.identE "M1" []) (.constE "1" []) [])) },
    { data := .macroD "M1" none (some (.constE "5" [])) } ]

def m2Data : DescriptionCollection :=
  { store := m2Store, macros := [0, 1], all := [0, 1],
    output_order := [("macro", 0), ("macro", 1)] }

/-- Witness for C6 at a concrete input: M2 (defined before M1) resolves its
reference to M1 without gaining an unresolved-reference error. -/
theorem find_dependencies_macro_deferred_witness :
    (getDesc (find_dependencies {} m2Data).store 0).errors =
      (getDesc m2Data.store 0).errors :=
  find_dependencies_macro_deferred {} m2Data 0 "M2"
    (.binE (.identE "M1" []) (.constE "1" []) [])
    rfl (by decide) (by refine ⟨?_, ?_, ?_, ?_⟩ <;> rfl) (by decide)

end Ctypesgen

namespace Ctypesgen

/-! ### The conflict renamer (operations.py, fix_conflicting_names)

Two versions exist in the repository: the current one
(src/src/ctypesgen/processor/operations.py, lines 79-161) and the legacy one
(src/ctypesgen/processor/operations.py, lines 87-236). Both are embedded.
The Python-environment name sources (dir(ctypes), dir(__builtins__),
keyword.kwlist) are parameters of the embedding. -/

/-- The environment-supplied name lists the renamer draws on. -/
structure NameEnv where
  ctypes_names : List String := []
  builtin_names : List String := []
  kwlist : List String := []

/-- The protected-names dictionary: name -> human-readable origin.
Assignment conses, so the newest entry shadows older ones, like a dict. -/
abbrev PMap := List (String × String)

def pmAssign (m : PMap) (k v : String) : PMap := (k, v) :: m

def pmLookup (m : PMap) (k : String) : Option String :=
  (m.find? (fun p => decide (p.1 = k))).map (·.2)

def pmMem (m : PMap) (k : String) : Bool := (pmLookup m k).isSome

/-- protected_names of the current fix_conflicting_names (lines 86-100):
ctypesgen/ctypes names, then Python builtins, then linked-module symbols, then
Python keywords, later sources overriding earlier ones. -/
def protected_names_v2 (env : NameEnv) (linked : List String) : PMap :=
  let m := (["_libs", "_libs_info", "UNCHECKED"] ++
      env.ctypes_names.filter (fun x => !(x.startsWith "_"))).foldl
    (fun m n => pmAssign m n "a name from ctypes or ctypesgen") []
  let m := env.builtin_names.foldl (fun m n => pmAssign m n "a Python builtin") m
  let m := linked.foldl (fun m n => pmAssign m n "a name from a linked Python module") m
  env.kwlist.foldl (fun m n => pmAssign m n "a Python keyword") m

/-- One rename of the current renamer (lines 120-123): append an underscore to
the tag of a struct or enum, or to the name otherwise. The undef case cannot
be reached (undefs are in none of the renamer's category lists); it is made
name-growing so the loop below is total. -/
def appendUnderscoreData : DescData → DescData
  | .structD t v m o ct => .structD (t ++ "_") v m o ct
  | .enumD t m => .enumD (t ++ "_") m
  | .constantD n v => .constantD (n ++ "_") v
  | .typedefD n ct => .typedefD (n ++ "_") ct
  | .functionD n cn rt ats va => .functionD (n ++ "_") cn rt ats va
  | .variableD n cn ct => .variableD (n ++ "_") cn ct
  | .macroD n ps b => .macroD (n ++ "_") ps b
  | .undefD m => .undefD (.identE (exprIdentName m ++ "_") [])

/-- One rename of the legacy renamer (lines 181-184): append an underscore to
a struct or enum tag, but prepend one to a plain name. -/
def prependUnderscoreData : DescData → DescData
  | .structD t v m o ct => .structD (t ++ "_") v m o ct
  | .enumD t m => .enumD (t ++ "_") m
  | .constantD n v => .constantD ("_" ++ n) v
  | .typedefD n ct => .typedefD ("_" ++ n) ct
  | .functionD n cn rt ats va => .functionD ("_" ++ n) cn rt ats va
  | .variableD n cn ct => .variableD ("_" ++ n) cn ct
  | .macroD n ps b => .macroD ("_" ++ n) ps b
  | .undefD m => .undefD (.identE (exprIdentName m ++ "_") [])

/-- The while loop `while desc.py_name() in protected_names: rename` of both
renamer versions, on fuel. The loop visits strictly longer names each
iteration, and names still looping are keys of the map, so fuel equal to the
map size plus one is always enough (fixNameLoop_not_protected below). -/
def fixNameLoop (step : DescData → DescData) (prot : PMap) : Nat → DescData → DescData
  | 0, d => d
  | fuel + 1, d => if pmMem prot d.py_name then fixNameLoop step prot fuel (step d) else d

/-- The rename loop of the current renamer. -/
def rename_loop (prot : PMap) (d : DescData) : DescData :=
  fixNameLoop appendUnderscoreData prot (prot.length + 1) d

/-- The rename loop of the legacy renamer. -/
def rename_loop_v1 (prot : PMap) (d : DescData) : DescData :=
  fixNameLoop prependUnderscoreData prot (prot.length + 1) d

theorem py_name_append (d : DescData) :
    (appendUnderscoreData d).py_name = d.py_name ++ "_" := by
  cases d <;> simp [appendUnderscoreData, DescData.py_name, exprIdentName, String.append_assoc]

theorem py_name_append_len (d : DescData) :
    (appendUnderscoreData d).py_name.length = d.py_name.length + 1 := by
  rw [py_name_append, String.length_append]
  rfl

theorem py_name_prepend_len (d : DescData) :
    (prependUnderscoreData d).py_name.length = d.py_name.length + 1 := by
  have h1 : ("_" : String).length = 1 := rfl
  cases d <;> simp [prependUnderscoreData, DescData.py_name, exprIdentName,
    String.length_append, h1] <;> omega

theorem length_filter_mono' {α : Type} (p q : α → Bool) (hpq : ∀ a, p a = true → q a = true) :
    ∀ (l : List α), (l.filter p).length ≤ (l.filter q).length := by
  intro l
  induction l with
  | nil => exact Nat.le_refl _
  | cons b t ih =>
    by_cases hb : p b = true
    · rw [List.filter_cons, List.filter_cons, if_pos hb, if_pos (hpq b hb)]
      simpa using ih
    · rw [List.filter_cons, if_neg hb, List.filter_cons]
      by_cases hq : q b = true
      · rw [if_pos hq]
        exact Nat.le_trans ih (by simp)
      · rw [if_neg hq]
        exact ih

theorem length_filter_lt {α : Type} (p q : α → Bool) (hpq : ∀ a, p a = true → q a = true) :
    ∀ (l : List α) (a : α), a ∈ l → q a = true → p a = false →
      (l.filter p).length < (l.filter q).length := by
  intro l
  induction l with
  | nil => intro a ha; simp at ha
  | cons b t ih =>
    intro a ha hqa hpa
    rcases List.mem_cons.mp ha with rfl | ha'
    · rw [List.filter_cons, List.filter_cons, if_neg (by simp [hpa]), if_pos hqa]
      exact Nat.lt_succ_of_le (length_filter_mono' p q hpq t)
    · have hih := ih a ha' hqa hpa
      by_cases hb : p b = true
      · rw [List.filter_cons, List.filter_cons, if_pos hb, if_pos (hpq b hb)]
        simpa using hih
      · rw [List.filter_cons, if_neg hb, List.filter_cons]
        by_cases hq : q b = true
        · rw [if_pos hq]
          exact Nat.lt_succ_of_lt hih
        · rw [if_neg hq]
          exact hih

theorem pmMem_exists (prot : PMap) (k : String) (h : pmMem prot k = true) :
    ∃ e ∈ prot, e.1 = k := by
  unfold pmMem pmLookup at h
  cases hf : prot.find? (fun p => decide (p.1 = k)) with
  | none => rw [hf] at h; simp at h
  | some e =>
    refine ⟨e, List.mem_of_find?_eq_some hf, ?_⟩
    have := List.find?_some hf
    simpa using this

/-- Fuel adequacy of the rename loop: with fuel exceeding the number of
protected entries at least as long as the current name, the loop exits on a
name that is no longer protected. -/
theorem fixNameLoop_not_protected (step : DescData → DescData)
    (hstep : ∀ d, (step d).py_name.length = d.py_name.length + 1) :
    ∀ (fuel : Nat) (prot : PMap) (d : DescData),
      (prot.filter (fun p => decide (d.py_name.length ≤ p.1.length))).length < fuel →
      pmMem prot (fixNameLoop step prot fuel d).py_name = false := by
  intro fuel
  induction fuel with
  | zero => intro prot d h; omega
  | succ f ih =>
    intro prot d h
    rw [fixNameLoop]
    cases hm : pmMem prot d.py_name with
    | false => exact hm
    | true =>
      rw [if_pos rfl]
      refine ih prot (step d) ?_
      rcases pmMem_exists prot d.py_name hm with ⟨e, he, hek⟩
      have hlt : (prot.filter (fun p => decide ((step d).py_name.length ≤ p.1.length))).length <
          (prot.filter (fun p => decide (d.py_name.length ≤ p.1.length))).length := by
        refine length_filter_lt _ _ ?_ prot e he ?_ ?_
        · intro a ha
          rw [hstep] at ha
          simp only [decide_eq_true_eq] at ha ⊢
          omega
        · simp only [decide_eq_true_eq, hek]
          omega
        · rw [hstep]
          simp only [decide_eq_false_iff_not, hek]
          omega
      omega

theorem rename_loop_not_protected (prot : PMap) (d : DescData) :
    pmMem prot (rename_loop prot d).py_name = false := by
  refine fixNameLoop_not_protected appendUnderscoreData py_name_append_len _ prot d ?_
  have := length_filter_mono' (fun p => decide (d.py_name.length ≤ p.1.length))
    (fun _ => true) (fun a _ => rfl) prot
  simp only [List.filter_true] at this
  omega

theorem rename_loop_v1_not_protected (prot : PMap) (d : DescData) :
    pmMem prot (rename_loop_v1 prot d).py_name = false := by
  refine fixNameLoop_not_protected prependUnderscoreData py_name_prepend_len _ prot d ?_
  have := length_filter_mono' (fun p => decide (d.py_name.length ≤ p.1.length))
    (fun _ => true) (fun a _ => rfl) prot
  simp only [List.filter_true] at this
  omega

end Ctypesgen

namespace Ctypesgen

/-- The opaque attribute of a StructDescription. -/
def DescData.opaqAttr : DescData → Bool
  | .structD _ _ _ o _ => o
  | _ => false

/-- The renamer's category priority order (both versions, lines 103-111 /
92-101): functions, variables, structs, typedefs, enums, constants, macros. -/
def priorityList (data : DescriptionCollection) : List Nat :=
  data.functions ++ data.variables_ ++ data.structs ++ data.typedefs ++
    data.enums ++ data.constants ++ data.macros

/-- One iteration of the main loop of the current fix_conflicting_names
(src/src, lines 113-134): skip non-colliding descriptions; rename a colliding
one until its name is free; record a warning (with a note about dependents, if
any, which are otherwise left alone); if the rule is "yes", protect the new
name. -/
def fcnStep (acc : Store × PMap) (i : Nat) : Store × PMap :=
  let desc := getDesc acc.1 i
  if pmMem acc.2 desc.py_name then
    let conflict_name := (pmLookup acc.2 desc.py_name).getD ""
    let original_name := desc.casual_name
    let st := modifyDesc acc.1 i (fun x => { x with data := rename_loop acc.2 x.data })
    let renamed := getDesc st i
    let message := original_name ++ " has been renamed to " ++ renamed.casual_name ++
      " due to a name conflict with " ++ conflict_name ++ "."
    let message :=
      if renamed.dependents.isEmpty then message
      else message ++ " Dependants (should adapt implicitly): " ++ toString renamed.dependents
    let st := descWarning st i message none
    let prot :=
      if renamed.include_rule = .yes then pmAssign acc.2 renamed.py_name renamed.casual_name
      else acc.2
    (st, prot)
  else acc

/-- The struct-member keyword pass of the current renamer (lines 138-147):
members named like a Python keyword get a trailing underscore and a warning. -/
def memberRenameStep (kw : List String) (st : Store) (i : Nat) : Store :=
  let desc := getDesc st i
  if desc.data.opaqAttr then st
  else
    match desc.data with
    | .structD tag variety (some members) o ct =>
      let st := modifyDesc st i (fun x => { x with data := (.structD tag variety
        (some (members.map (fun m => if decide (m.1 ∈ kw) then (m.1 ++ "_", m.2) else m)))
        o ct : DescData) })
      (members.filter (fun m => decide (m.1 ∈ kw))).foldl
        (fun st m => descWarning st i
          ("Member '" ++ m.1 ++ "' of " ++ desc.casual_name ++ " has been renamed to '" ++
            m.1 ++ "_' because it has the same name as a Python keyword.")
          (some "rename"))
        st
    | _ => st

/-- The macro-parameter keyword pass of the current renamer (lines 152-161):
the first parameter that is a Python keyword gets the whole macro excluded
with a name-conflict error. -/
def macroParamStep (kw : List String) (st : Store) (i : Nat) : Store :=
  let desc := getDesc st i
  match desc.data.paramsAttr with
  | none => st
  | some ps =>
    if ps.isEmpty then st
    else
      match ps.find? (fun p => decide (p ∈ kw)) with
      | some p =>
        let st := descError st i
          ("One of the params to " ++ desc.casual_name ++ ", '" ++ p ++
            "', has the same name as a Python keyword. " ++ desc.casual_name ++
            " will be excluded.")
          (some "name-conflict")
        modifyDesc st i (fun x => { x with include_rule := .never })
      | none => st

/-- fix_conflicting_names, current version
(src/src/ctypesgen/processor/operations.py lines 79-161). -/
def fix_conflicting_names (env : NameEnv) (linked : List String)
    (data : DescriptionCollection) : DescriptionCollection :=
  let prot := protected_names_v2 env linked
  let p := (priorityList data).foldl fcnStep (data.store, prot)
  let st := data.structs.foldl (memberRenameStep env.kwlist) p.1
  let st := data.macros.foldl (macroParamStep env.kwlist) st
  { data with store := st }

/-- The occupied-names seed of the legacy fix_conflicting_names
(src/ctypesgen/processor/operations.py lines 107-165). The union of the two
Python sets is modelled as list concatenation (all entries map to the same
reason string, so ordering is immaterial). -/
def occupied_names_v1 : List String :=
  ["_libs", "_libs_info",
   "ctypes", "addressof", "ArgumentError", "cast", "CFUNCTYPE", "pointer", "POINTER",
   "Union", "sizeof", "Structure", "c_buffer", "c_byte", "c_char", "c_char_p",
   "c_double", "c_float", "c_int", "c_int16", "c_int32", "c_int64", "c_int8",
   "c_long", "c_longlong", "c_ptrdiff_t", "c_short", "c_size_t", "c_ubyte",
   "c_uint", "c_uint16", "c_uint32", "c_uint64", "c_uint8", "c_ulong",
   "c_ulonglong", "c_ushort", "c_void", "c_void_p", "c_voidp", "c_wchar",
   "c_wchar_p"]

/-- important_names of the legacy renamer (lines 103-173). -/
def important_names_v1 (env : NameEnv) (imported : List String) : PMap :=
  let m := occupied_names_v1.foldl
    (fun m n => pmAssign m n "a name needed by ctypes or ctypesgen") []
  let m := env.builtin_names.foldl (fun m n => pmAssign m n "a Python builtin") m
  let m := imported.foldl (fun m n => pmAssign m n "a name from an included Python module") m
  env.kwlist.foldl (fun m n => pmAssign m n "a Python keyword") m

/-- One iteration of the main loop of the legacy fix_conflicting_names
(lines 175-205): like the current one, but names are prefixed (tags still
suffixed), and every dependent of a renamed description has its inclusion rule
set to "never". -/
def fcnStepV1 (acc : Store × PMap) (i : Nat) : Store × PMap :=
  let desc := getDesc acc.1 i
  if pmMem acc.2 desc.py_name then
    let conflict_name := (pmLookup acc.2 desc.py_name).getD ""
    let original_name := desc.casual_name
    let st := modifyDesc acc.1 i (fun x => { x with data := rename_loop_v1 acc.2 x.data })
    let renamed := getDesc st i
    let st :=
      if renamed.dependents.isEmpty then
        descWarning st i
          (original_name ++ " has been renamed to " ++ renamed.casual_name ++
            " due to a name conflict with " ++ conflict_name ++ ".")
          (some "rename")
      else
        let st := descWarning st i
          (original_name ++ " has been renamed to " ++ renamed.casual_name ++
            " due to a name conflict with " ++ conflict_name ++
            ". Other objects depend on " ++ original_name ++
            " - those objects will be skipped.")
          (some "rename")
        renamed.dependents.foldl
          (fun st dep => modifyDesc st dep (fun x => { x with include_rule := .never })) st
    let prot :=
      if renamed.include_rule = .yes then pmAssign acc.2 renamed.py_name renamed.casual_name
      else acc.2
    (st, prot)
  else acc

/-- The legacy struct-member keyword pass (lines 210-220): an underscore is
prepended. -/
def memberRenameStepV1 (kw : List String) (st : Store) (i : Nat) : Store :=
  let desc := getDesc st i
  if desc.data.opaqAttr then st
  else
    match desc.data with
    | .structD tag variety (some members) o ct =>
      let st := modifyDesc st i (fun x => { x with data := (.structD tag variety
        (some (members.map (fun m => if decide (m.1 ∈ kw) then ("_" ++ m.1, m.2) else m)))
        o ct : DescData) })
      (members.filter (fun m => decide (m.1 ∈ kw))).foldl
        (fun st m => descWarning st i
          ("Member \x22" ++ m.1 ++ "\x22 of " ++ desc.casual_name ++
            " has been renamed to \x22" ++ "_" ++ m.1 ++
            "\x22 because it has the same name as a Python keyword.")
          (some "rename"))
        st
    | _ => st

/-- The legacy macro-parameter keyword pass (lines 226-235): one error per
keyword-named parameter, and no rule change. -/
def macroParamStepV1 (kw : List String) (st : Store) (i : Nat) : Store :=
  let desc := getDesc st i
  match desc.data.paramsAttr with
  | none => st
  | some ps =>
    if ps.isEmpty then st
    else
      (ps.filter (fun p => decide (p ∈ kw))).foldl
        (fun st p => descError st i
          ("One of the parameters to " ++ desc.casual_name ++ ", \x22" ++ p ++
            "\x22 has the same name as a Python keyword. " ++ desc.casual_name ++
            " will be skipped.")
          (some "name-conflict"))
        st

/-- fix_conflicting_names, legacy version
(src/ctypesgen/processor/operations.py lines 87-236). -/
def fix_conflicting_names_v1 (env : NameEnv) (imported : List String)
    (data : DescriptionCollection) : DescriptionCollection :=
  let prot := important_names_v1 env imported
  let p := (priorityList data).foldl fcnStepV1 (data.store, prot)
  let st := data.structs.foldl (memberRenameStepV1 env.kwlist) p.1
  let st := data.macros.foldl (macroParamStepV1 env.kwlist) st
  { data with store := st }

end Ctypesgen

namespace Ctypesgen

theorem descWarning_length (st : Store) (i : Nat) (m : String) (c : Option String) :
    (descWarning st i m c).length = st.length := length_modifyDesc ..

theorem pmMem_assign_self (m : PMap) (k v : String) :
    pmMem (pmAssign m k v) k = true := by
  simp [pmMem, pmAssign, pmLookup, List.find?_cons]

theorem pmMem_assign_mono (m : PMap) (k v x : String) (h : pmMem m x = true) :
    pmMem (pmAssign m k v) x = true := by
  unfold pmMem pmLookup pmAssign at *
  by_cases hk : k = x
  · rw [List.find?_cons_of_pos _ (by simp [hk])]
    simp
  · rw [List.find?_cons_of_neg _ (by simp [hk])]
    exact h

theorem fcnStep_length (acc : Store × PMap) (k : Nat) :
    (fcnStep acc k).1.length = acc.1.length := by
  by_cases hc : pmMem acc.2 (getDesc acc.1 k).py_name = true
  · simp only [fcnStep]
    rw [if_pos hc]
    rw [descWarning_length, length_modifyDesc]
  · simp only [fcnStep]
    rw [if_neg hc]

theorem fcn_fold_length (l : List Nat) :
    ∀ acc : Store × PMap, (l.foldl fcnStep acc).1.length = acc.1.length := by
  induction l with
  | nil => intro acc; rfl
  | cons k t ih =>
    intro acc
    rw [List.foldl_cons, ih, fcnStep_length]

theorem fcnStep_other (acc : Store × PMap) (k i : Nat) (h : k ≠ i) :
    getDesc (fcnStep acc k).1 i = getDesc acc.1 i := by
  by_cases hc : pmMem acc.2 (getDesc acc.1 k).py_name = true
  · simp only [fcnStep]
    rw [if_pos hc]
    unfold descWarning
    rw [getDesc_modify_ne _ _ _ _ h, getDesc_modify_ne _ _ _ _ h]
  · simp only [fcnStep]
    rw [if_neg hc]

theorem fcn_fold_other (l : List Nat) (i : Nat) (h : i ∉ l) :
    ∀ acc : Store × PMap, getDesc (l.foldl fcnStep acc).1 i = getDesc acc.1 i := by
  induction l with
  | nil => intro acc; rfl
  | cons k t ih =>
    intro acc
    have hki : k ≠ i := by
      intro hk
      exact h (hk ▸ List.mem_cons_self _ _)
    rw [List.foldl_cons, ih (fun hm => h (List.mem_cons_of_mem _ hm)),
      fcnStep_other _ _ _ hki]

theorem fcnStep_prot_mono (acc : Store × PMap) (k : Nat) (x : String)
    (h : pmMem acc.2 x = true) : pmMem (fcnStep acc k).2 x = true := by
  by_cases hc : pmMem acc.2 (getDesc acc.1 k).py_name = true
  · simp only [fcnStep]
    rw [if_pos hc]
    by_cases hy : (getDesc (modifyDesc acc.1 k
        (fun x => { x with data := rename_loop acc.2 x.data })) k).include_rule = .yes
    · rw [if_pos hy]
      exact pmMem_assign_mono _ _ _ _ h
    · rw [if_neg hy]
      exact h
  · simp only [fcnStep]
    rw [if_neg hc]
    exact h

theorem fcn_fold_prot_mono (l : List Nat) :
    ∀ (acc : Store × PMap) (x : String), pmMem acc.2 x = true →
      pmMem (l.foldl fcnStep acc).2 x = true := by
  induction l with
  | nil => intro acc x h; exact h
  | cons k t ih =>
    intro acc x h
    rw [List.foldl_cons]
    exact ih _ _ (fcnStep_prot_mono _ _ _ h)

theorem fcnStep_self (acc : Store × PMap) (i : Nat) (hi : i < acc.1.length)
    (hc : pmMem acc.2 (getDesc acc.1 i).py_name = true) :
    (getDesc (fcnStep acc i).1 i).data = rename_loop acc.2 (getDesc acc.1 i).data ∧
    (getDesc (fcnStep acc i).1 i).include_rule = (getDesc acc.1 i).include_rule := by
  have h1 : i < (modifyDesc acc.1 i
      (fun x => { x with data := rename_loop acc.2 x.data })).length := by
    rw [length_modifyDesc]; exact hi
  simp only [fcnStep]
  rw [if_pos hc]
  unfold descWarning
  rw [getDesc_modify_self _ _ _ h1, getDesc_modify_self _ _ _ hi]
  exact ⟨rfl, rfl⟩

theorem fcnStep_self_prot (acc : Store × PMap) (i : Nat) (hi : i < acc.1.length)
    (hc : pmMem acc.2 (getDesc acc.1 i).py_name = true)
    (hyes : (getDesc acc.1 i).include_rule = .yes) :
    pmMem (fcnStep acc i).2 (rename_loop acc.2 (getDesc acc.1 i).data).py_name = true := by
  have h1 : (getDesc (modifyDesc acc.1 i
      (fun x => { x with data := rename_loop acc.2 x.data })) i) =
      { getDesc acc.1 i with data := rename_loop acc.2 (getDesc acc.1 i).data } :=
    getDesc_modify_self _ _ _ hi
  simp only [fcnStep]
  rw [if_pos hc, h1]
  rw [if_pos hyes]
  exact pmMem_assign_self _ _ _

end Ctypesgen

namespace Ctypesgen

theorem rename_loop_one_step (prot : PMap) (d : DescData)
    (h1 : pmMem prot d.py_name = true)
    (h2 : pmMem prot (d.py_name ++ "_") = false) :
    rename_loop prot d = appendUnderscoreData d := by
  rcases pmMem_exists prot d.py_name h1 with ⟨e, he, _⟩
  have hpos : 0 < prot.length := List.length_pos.mpr (List.ne_nil_of_mem he)
  obtain ⟨L, hL⟩ : ∃ L, prot.length = L + 1 := ⟨prot.length - 1, by omega⟩
  unfold rename_loop
  rw [hL, show L + 1 + 1 = (L + 1) + 1 from rfl]
  rw [fixNameLoop, if_pos h1]
  rw [fixNameLoop, py_name_append, if_neg (by simp [h2])]

theorem rename_loop_two_step (prot : PMap) (d : DescData)
    (h1 : pmMem prot d.py_name = true)
    (h2 : pmMem prot (d.py_name ++ "_") = true)
    (h3 : pmMem prot (d.py_name ++ "_" ++ "_") = false) :
    rename_loop prot d = appendUnderscoreData (appendUnderscoreData d) := by
  rcases pmMem_exists prot d.py_name h1 with ⟨e1, he1, hk1⟩
  rcases pmMem_exists prot (d.py_name ++ "_") h2 with ⟨e2, he2, hk2⟩
  have hne : e1 ≠ e2 := by
    intro h
    rw [h, hk2] at hk1
    have := congrArg String.length hk1
    rw [String.length_append] at this
    have h1' : ("_" : String).length = 1 := rfl
    omega
  have hlen : 2 ≤ prot.length := by
    rcases prot with _ | ⟨a, rest⟩
    · simp at he1
    · rcases rest with _ | ⟨b, rest2⟩
      · simp only [List.mem_singleton] at he1 he2
        exact absurd (he1.trans he2.symm) hne
      · simp only [List.length_cons]
        omega
  obtain ⟨L, hL⟩ : ∃ L, prot.length = L + 2 := ⟨prot.length - 2, by omega⟩
  unfold rename_loop
  rw [hL, show L + 2 + 1 = (L + 2) + 1 from rfl]
  rw [fixNameLoop, if_pos h1]
  rw [show L + 2 = (L + 1) + 1 from rfl]
  rw [fixNameLoop, py_name_append, if_pos h2]
  rw [fixNameLoop, py_name_append, py_name_append, if_neg (by simp [h3])]

/-- The main rename loop of fix_conflicting_names, split around the positions
of two same-named colliding descriptions i and j: when the earlier one (i) has
an inclusion rule of yes, its new name is registered as protected before j is
renamed, so j cannot receive the same name. -/
theorem fcn_loop_distinct (acc : Store × PMap) (l₂ l₃ : List Nat) (i j : Nat)
    (hi : i < acc.1.length) (hj : j < acc.1.length) (hne : i ≠ j)
    (hil2 : i ∉ l₂) (hil3 : i ∉ l₃) (hjl2 : j ∉ l₂) (hjl3 : j ∉ l₃)
    (hname : (getDesc acc.1 j).py_name = (getDesc acc.1 i).py_name)
    (hcol : pmMem acc.2 (getDesc acc.1 i).py_name = true)
    (hyes : (getDesc acc.1 i).include_rule = .yes) :
    (getDesc ((i :: (l₂ ++ j :: l₃)).foldl fcnStep acc).1 i).py_name ≠
    (getDesc ((i :: (l₂ ++ j :: l₃)).foldl fcnStep acc).1 j).py_name := by
  rw [List.foldl_cons, List.foldl_append, List.foldl_cons]
  set acc1 := fcnStep acc i with hacc1
  set acc2 := l₂.foldl fcnStep acc1 with hacc2
  set acc3 := fcnStep acc2 j with hacc3
  have hstepi := fcnStep_self acc i hi hcol
  have hBi : pmMem acc1.2 (rename_loop acc.2 (getDesc acc.1 i).data).py_name = true :=
    fcnStep_self_prot acc i hi hcol hyes
  have hC : getDesc acc2.1 i = getDesc acc1.1 i := fcn_fold_other l₂ i hil2 acc1
  have hD : getDesc acc2.1 j = getDesc acc.1 j := by
    rw [fcn_fold_other l₂ j hjl2 acc1, hacc1, fcnStep_other acc i j hne]
  have hE : pmMem acc2.2 (getDesc acc2.1 j).py_name = true := by
    rw [hD, hname]
    exact fcn_fold_prot_mono l₂ acc1 _ (fcnStep_prot_mono acc i _ hcol)
  have hF : j < acc2.1.length := by
    rw [hacc2, fcn_fold_length, hacc1, fcnStep_length]
    exact hj
  have hstepj := fcnStep_self acc2 j hF hE
  have hH : pmMem acc2.2 (rename_loop acc2.2 (getDesc acc2.1 j).data).py_name = false :=
    rename_loop_not_protected acc2.2 (getDesc acc2.1 j).data
  have hI : pmMem acc2.2 (rename_loop acc.2 (getDesc acc.1 i).data).py_name = true :=
    fcn_fold_prot_mono l₂ acc1 _ hBi
  have hKi : getDesc (l₃.foldl fcnStep acc3).1 i = getDesc acc1.1 i := by
    rw [fcn_fold_other l₃ i hil3 acc3, hacc3, fcnStep_other acc2 j i (fun h => hne h.symm), hC]
  have hKj : getDesc (l₃.foldl fcnStep acc3).1 j = getDesc acc3.1 j :=
    fcn_fold_other l₃ j hjl3 acc3
  rw [hKi, hKj]
  show (getDesc acc1.1 i).data.py_name ≠ (getDesc acc3.1 j).data.py_name
  rw [hstepi.1, hstepj.1]
  intro hcontra
  rw [hcontra] at hI
  rw [hI] at hH
  exact Bool.noConfusion hH

end Ctypesgen

namespace Ctypesgen

/-- A store where two same-named descriptions survive the renamer: a variable
named list (rule if_needed, required by an included function) and a constant
named list (rule yes), with Python builtin list protected. -/
def renameClashStore : Store :=
  [ { data := .functionD "f" "f" (.simple "int" false 0 []) [] false,
      include_rule := .yes, requirements := [1] },
    { data := .variableD "list" "list" (.simple "int" false 0 []),
      include_rule := .if_needed, dependents := [0] },
    { data := .constantD "list" (.constE "1" []),
      include_rule := .yes } ]

def renameClashData : DescriptionCollection :=
  { store := renameClashStore, constants := [2], functions := [0], variables_ := [1],
    all := [0, 1, 2],
    output_order := [("function", 0), ("variable", 1), ("constant", 2)] }

def renameClashEnv : NameEnv := { builtin_names := ["list"] }

def renameClashFinal : Store :=
  calculate_final_inclusion (fix_conflicting_names renameClashEnv [] renameClashData).all
    (fix_conflicting_names renameClashEnv [] renameClashData).store

/-- C2 counterexample: two distinct descriptions both named list collide with
the protected name list; the renamer renames the if_needed variable first but
only registers new names of rule-yes descriptions, so the later constant is
renamed to the same name list_; after the inclusion pass both survive into the
output (both included) with equal final names, contradicting the claim that
surviving same-named descriptions end up with distinct names. -/
theorem fix_conflicting_names_shared_final_name :
    (getDesc renameClashData.store 1).py_name = (getDesc renameClashData.store 2).py_name ∧
    pmMem (protected_names_v2 renameClashEnv [])
      (getDesc renameClashData.store 1).py_name = true ∧
    (getDesc renameClashFinal 1).included = true ∧
    (getDesc renameClashFinal 2).included = true ∧
    (getDesc renameClashFinal 1).py_name = (getDesc renameClashFinal 2).py_name :=
  ⟨rfl, rfl, rfl, rfl, rfl⟩

end Ctypesgen

namespace Ctypesgen

/-- C2 (amended): the rename loop of fix_conflicting_names always exits on a
name outside the protected set; a description whose name foo is protected is
renamed to foo_ (and to foo__ when foo_ is also protected); and when two
same-named colliding descriptions are processed in order i before j, with the
earlier one carrying inclusion rule yes (so its new name gets registered as
protected), the two end up with distinct final names. (The unamended claim
fails when the earlier description has a non-yes rule yet still survives; see
the counterexample.) -/
theorem fix_conflicting_names_rename_correct
    (prot prot1 prot2 : PMap) (d d1 d2 : DescData)
    (h1a : pmMem prot1 d1.py_name = true)
    (h1b : pmMem prot1 (d1.py_name ++ "_") = false)
    (h2a : pmMem prot2 d2.py_name = true)
    (h2b : pmMem prot2 (d2.py_name ++ "_") = true)
    (h2c : pmMem prot2 (d2.py_name ++ "_" ++ "_") = false)
    (env : NameEnv) (linked : List String) (data : DescriptionCollection)
    (l₂ l₃ : List Nat) (i j : Nat)
    (hsplit : priorityList data = i :: (l₂ ++ j :: l₃))
    (hstructs : data.structs = []) (hmacros : data.macros = [])
    (hi : i < data.store.length) (hj : j < data.store.length)
    (hne : i ≠ j) (hil2 : i ∉ l₂) (hil3 : i ∉ l₃) (hjl2 : j ∉ l₂) (hjl3 : j ∉ l₃)
    (hname : (getDesc data.store j).py_name = (getDesc data.store i).py_name)
    (hcol : pmMem (protected_names_v2 env linked) (getDesc data.store i).py_name = true)
    (hyes : (getDesc data.store i).include_rule = .yes) :
    pmMem prot (rename_loop prot d).py_name = false ∧
    (rename_loop prot1 d1).py_name = d1.py_name ++ "_" ∧
    (rename_loop prot2 d2).py_name = d2.py_name ++ "_" ++ "_" ∧
    (getDesc (fix_conflicting_names env linked data).store i).py_name ≠
      (getDesc (fix_conflicting_names env linked data).store j).py_name := by
  refine ⟨rename_loop_not_protected prot d, ?_, ?_, ?_⟩
  · rw [rename_loop_one_step prot1 d1 h1a h1b]
    exact py_name_append d1
  · rw [rename_loop_two_step prot2 d2 h2a h2b h2c, py_name_append, py_name_append]
  · have hstore : (fix_conflicting_names env linked data).store =
        ((priorityList data).foldl fcnStep
          (data.store, protected_names_v2 env linked)).1 := by
      simp only [fix_conflicting_names, hstructs, hmacros, List.foldl_nil]
    rw [hstore, hsplit]
    exact fcn_loop_distinct (data.store, protected_names_v2 env linked) l₂ l₃ i j
      hi hj hne hil2 hil3 hjl2 hjl3 hname hcol hyes

def w2prot : PMap := [("a", "b")]

def w2d : DescData := .constantD "x" (.constE "0" [])

def w2prot1 : PMap := [("foo", "k")]

def w2d1 : DescData := .constantD "foo" (.constE "0" [])

def w2prot2 : PMap := [("foo_", "k"), ("foo", "k")]

def w2env : NameEnv := { builtin_names := ["list"] }

def w2store : Store :=
  [ { data := .variableD "list" "list" (.simple "int" false 0 []), include_rule := .yes },
    { data := .constantD "list" (.constE "1" []), include_rule := .yes } ]

def w2data : DescriptionCollection :=
  { store := w2store, variables_ := [0], constants := [1], all := [0, 1],
    output_order := [("variable", 0), ("constant", 1)] }

/-- Concrete instantiation of the amended renamer theorem. -/
theorem fix_conflicting_names_rename_correct_witness :
    pmMem w2prot (rename_loop w2prot w2d).py_name = false ∧
    (rename_loop w2prot1 w2d1).py_name = w2d1.py_name ++ "_" ∧
    (rename_loop w2prot2 w2d1).py_name = w2d1.py_name ++ "_" ++ "_" ∧
    (getDesc (fix_conflicting_names w2env [] w2data).store 0).py_name ≠
      (getDesc (fix_conflicting_names w2env [] w2data).store 1).py_name :=
  fix_conflicting_names_rename_correct w2prot w2prot1 w2prot2 w2d w2d1 w2d1
    rfl rfl rfl rfl rfl
    w2env [] w2data [] [] 0 1
    rfl rfl rfl
    (by decide) (by decide)
    (by decide) (by decide) (by decide) (by decide) (by decide)
    rfl rfl rfl

end Ctypesgen

namespace Ctypesgen

theorem never_modify (st : Store) (idx : Nat) (f : Desc → Desc)
    (hf : ∀ x, x.include_rule = .never → (f x).include_rule = .never)
    (k : Nat) (h : (getDesc st k).include_rule = .never) :
    (getDesc (modifyDesc st idx f) k).include_rule = .never := by
  by_cases hik : idx = k
  · subst hik
    by_cases hlt : idx < st.length
    · rw [getDesc_modify_self _ _ _ hlt]
      exact hf _ h
    · unfold modifyDesc
      rw [set_oob _ _ _ (Nat.le_of_not_lt hlt)]
      exact h
  · rw [getDesc_modify_ne _ _ _ _ hik]
    exact h

theorem never_fold {α : Type} (l : List α) (g : Store → α → Store)
    (hg : ∀ st a k, (getDesc st k).include_rule = .never →
      (getDesc (g st a) k).include_rule = .never) :
    ∀ (st : Store) (k : Nat), (getDesc st k).include_rule = .never →
      (getDesc (l.foldl g st) k).include_rule = .never := by
  induction l with
  | nil => intro st k h; exact h
  | cons a t ih => intro st k h; exact ih _ _ (hg st a k h)

theorem setNever_fold_preserves (deps : List Nat) :
    ∀ (st : Store) (k : Nat), (getDesc st k).include_rule = .never →
      (getDesc (deps.foldl (fun st dep => modifyDesc st dep
        (fun x => { x with include_rule := .never })) st) k).include_rule = .never :=
  never_fold deps _ (fun st a k h => never_modify st a _ (fun _ _ => rfl) k h)

theorem setNever_fold_sets (deps : List Nat) :
    ∀ (st : Store) (k : Nat), k ∈ deps → k < st.length →
      (getDesc (deps.foldl (fun st dep => modifyDesc st dep
        (fun x => { x with include_rule := .never })) st) k).include_rule = .never := by
  induction deps with
  | nil => intro st k hk; simp at hk
  | cons d t ih =>
    intro st k hk hlen
    rw [List.foldl_cons]
    rcases List.mem_cons.mp hk with rfl | hkt
    · exact setNever_fold_preserves t _ k (by rw [getDesc_modify_self _ _ _ hlen])
    · exact ih _ k hkt (by rw [length_modifyDesc]; exact hlen)

theorem setNever_fold_data (deps : List Nat) :
    ∀ (st : Store) (k : Nat),
      (getDesc (deps.foldl (fun st dep => modifyDesc st dep
        (fun x => { x with include_rule := .never })) st) k).data = (getDesc st k).data := by
  induction deps with
  | nil => intro st k; rfl
  | cons d t ih =>
    intro st k
    rw [List.foldl_cons, ih]
    by_cases hdk : d = k
    · subst hdk
      by_cases hlt : d < st.length
      · rw [getDesc_modify_self _ _ _ hlt]
      · unfold modifyDesc
        rw [set_oob _ _ _ (Nat.le_of_not_lt hlt)]
    · rw [getDesc_modify_ne _ _ _ _ hdk]

end Ctypesgen

namespace Ctypesgen

theorem fcnStepV1_marks_dependents (acc : Store × PMap) (i : Nat) (hi : i < acc.1.length)
    (hc : pmMem acc.2 (getDesc acc.1 i).py_name = true) :
    ∀ k ∈ (getDesc acc.1 i).dependents, k < acc.1.length →
      (getDesc (fcnStepV1 acc i).1 k).include_rule = .never := by
  intro k hk hklen
  have hren : getDesc (modifyDesc acc.1 i
      (fun x => { x with data := rename_loop_v1 acc.2 x.data })) i
      = { getDesc acc.1 i with data := rename_loop_v1 acc.2 (getDesc acc.1 i).data } :=
    getDesc_modify_self _ _ _ hi
  simp only [fcnStepV1]
  rw [if_pos hc, hren]
  dsimp only
  have hne : (getDesc acc.1 i).dependents.isEmpty = false := by
    cases hdeps : (getDesc acc.1 i).dependents with
    | nil =>
      rw [hdeps] at hk
      exact absurd hk (List.not_mem_nil k)
    | cons a t => rfl
  rw [hne]
  rw [if_neg (by intro h; exact Bool.noConfusion h)]
  refine setNever_fold_sets _ _ _ hk ?_
  rw [descWarning_length, length_modifyDesc]
  exact hklen

end Ctypesgen

namespace Ctypesgen

theorem fcnStepV1_data_other (acc : Store × PMap) (i k : Nat) (hk : k ≠ i) :
    (getDesc (fcnStepV1 acc i).1 k).data = (getDesc acc.1 k).data := by
  have hik : i ≠ k := fun h => hk h.symm
  by_cases hc : pmMem acc.2 (getDesc acc.1 i).py_name = true
  · simp only [fcnStepV1]
    rw [if_pos hc]
    dsimp only
    split
    · unfold descWarning
      rw [getDesc_modify_ne _ _ _ _ hik, getDesc_modify_ne _ _ _ _ hik]
    · rw [setNever_fold_data]
      unfold descWarning
      rw [getDesc_modify_ne _ _ _ _ hik, getDesc_modify_ne _ _ _ _ hik]
  · simp only [fcnStepV1]
    rw [if_neg hc]

theorem fcnStepV1_never (acc : Store × PMap) (i k : Nat)
    (h : (getDesc acc.1 k).include_rule = .never) :
    (getDesc (fcnStepV1 acc i).1 k).include_rule = .never := by
  by_cases hc : pmMem acc.2 (getDesc acc.1 i).py_name = true
  · simp only [fcnStepV1]
    rw [if_pos hc]
    dsimp only
    split
    · unfold descWarning
      apply never_modify
      · intro x hx; exact hx
      · apply never_modify
        · intro x hx; exact hx
        · exact h
    · refine setNever_fold_preserves _ _ k ?_
      unfold descWarning
      apply never_modify
      · intro x hx; exact hx
      · apply never_modify
        · intro x hx; exact hx
        · exact h
  · simp only [fcnStepV1]
    rw [if_neg hc]
    exact h

theorem memberRenameStepV1_never (kw : List String) (st : Store) (i k : Nat)
    (h : (getDesc st k).include_rule = .never) :
    (getDesc (memberRenameStepV1 kw st i) k).include_rule = .never := by
  unfold memberRenameStepV1
  dsimp only
  split
  · exact h
  · split
    · refine never_fold _ _ ?_ _ k ?_
      · intro st a k h
        unfold descWarning
        apply never_modify
        · intro x hx; exact hx
        · exact h
      · apply never_modify
        · intro x hx; exact hx
        · exact h
    · exact h

theorem macroParamStepV1_never (kw : List String) (st : Store) (i k : Nat)
    (h : (getDesc st k).include_rule = .never) :
    (getDesc (macroParamStepV1 kw st i) k).include_rule = .never := by
  unfold macroParamStepV1
  dsimp only
  split
  · exact h
  · split
    · exact h
    · refine never_fold _ _ ?_ _ k h
      intro st a k h
      unfold descError
      apply never_modify
      · intro x hx; exact hx
      · exact h

theorem fcnV1_fold_never (l : List Nat) :
    ∀ (acc : Store × PMap) (k : Nat), (getDesc acc.1 k).include_rule = .never →
      (getDesc (l.foldl fcnStepV1 acc).1 k).include_rule = .never := by
  induction l with
  | nil => intro acc k h; exact h
  | cons a t ih => intro acc k h; exact ih _ _ (fcnStepV1_never _ _ _ h)

end Ctypesgen

namespace Ctypesgen

/-- A renamed description (variable list, colliding with the Python builtin)
with a non-empty dependents set (the function g requires it). -/
def depClashStore : Store :=
  [ { data := .variableD "list" "list" (.simple "int" false 0 []),
      include_rule := .yes, dependents := [1] },
    { data := .functionD "g" "g" (.simple "int" false 0 []) [] false,
      include_rule := .yes, requirements := [0] } ]

def depClashData : DescriptionCollection :=
  { store := depClashStore, variables_ := [0], functions := [1], all := [0, 1],
    output_order := [("variable", 0), ("function", 1)] }

def depClashEnv : NameEnv := { builtin_names := ["list"] }

/-- C3 counterexample: in the current fix_conflicting_names, renaming a
description with a non-empty dependents set only records a warning; the
dependent keeps its inclusion rule (here yes instead of the claimed Never).
Only the legacy renamer sets every dependent's rule to Never. -/
theorem fix_conflicting_names_dependents_kept :
    (getDesc depClashData.store 0).py_name = "list" ∧
    (getDesc depClashData.store 0).dependents = [1] ∧
    pmMem (protected_names_v2 depClashEnv []) "list" = true ∧
    (getDesc (fix_conflicting_names depClashEnv [] depClashData).store 0).py_name = "list_" ∧
    (getDesc (fix_conflicting_names depClashEnv [] depClashData).store 1).include_rule = .yes :=
  ⟨rfl, rfl, rfl, rfl, rfl⟩

/-- C3 (amended, legacy renamer): when the legacy fix_conflicting_names
renames a colliding description, (a) every in-range member of its dependents
set has its inclusion rule set to Never by that loop iteration, (b) no other
description's payload (so no reference baked into a dependent) is touched by
the iteration, and (c) a Never rule, once set, survives the rest of the pass
(the remaining main-loop iterations and the struct-member and macro-parameter
passes never raise a rule). The current renamer instead leaves dependents'
rules unchanged; see the counterexample. -/
theorem fix_conflicting_names_v1_dependents_excluded
    (acc : Store × PMap) (i : Nat) (hi : i < acc.1.length)
    (hc : pmMem acc.2 (getDesc acc.1 i).py_name = true)
    (env : NameEnv) (imported : List String) (data : DescriptionCollection) :
    (∀ k ∈ (getDesc acc.1 i).dependents, k < acc.1.length →
      (getDesc (fcnStepV1 acc i).1 k).include_rule = .never) ∧
    (∀ k, k ≠ i → (getDesc (fcnStepV1 acc i).1 k).data = (getDesc acc.1 k).data) ∧
    (∀ k, (getDesc data.store k).include_rule = .never →
      (getDesc (fix_conflicting_names_v1 env imported data).store k).include_rule = .never) := by
  refine ⟨fcnStepV1_marks_dependents acc i hi hc,
    fun k hk => fcnStepV1_data_other acc i k hk, fun k h => ?_⟩
  simp only [fix_conflicting_names_v1]
  refine never_fold _ _ (fun st a k h => macroParamStepV1_never _ st a k h) _ _ ?_
  refine never_fold _ _ (fun st a k h => memberRenameStepV1_never _ st a k h) _ _ ?_
  exact fcnV1_fold_never _ _ _ h

def w3acc : Store × PMap := (depClashStore, [("list", "a Python builtin")])

def w3store : Store :=
  [ { data := .constantD "c" (.constE "0" []), include_rule := .never } ]

def w3data : DescriptionCollection :=
  { store := w3store, constants := [0], all := [0], output_order := [("constant", 0)] }

/-- Concrete instantiation of the legacy-renamer dependents theorem. -/
theorem fix_conflicting_names_v1_dependents_excluded_witness :
    (getDesc (fcnStepV1 w3acc 0).1 1).include_rule = .never ∧
    (getDesc (fcnStepV1 w3acc 0).1 1).data = (getDesc w3acc.1 1).data ∧
    (getDesc (fix_conflicting_names_v1 { } [] w3data).store 0).include_rule = .never :=
  ⟨(fix_conflicting_names_v1_dependents_excluded w3acc 0 (by decide) rfl { } [] w3data).1
      1 (by decide) (by decide),
   (fix_conflicting_names_v1_dependents_excluded w3acc 0 (by decide) rfl { } [] w3data).2.1
      1 (by decide),
   (fix_conflicting_names_v1_dependents_excluded w3acc 0 (by decide) rfl { } [] w3data).2.2
      0 rfl⟩

end Ctypesgen

namespace Ctypesgen

/-- The output selection of main (src/src/ctypesgen/__main__.py lines 112-116):
keep the included entries of output_order, in order; raise if none remain. -/
def mainSelect (st : Store) (output_order : List (String × Nat)) :
    Except String (List (String × Nat)) :=
  if (output_order.filter (fun kd => (getDesc st kd.2).included)).isEmpty then
    .error "No included target members - output would be empty."
  else .ok (output_order.filter (fun kd => (getDesc st kd.2).included))

/-- A store holding one included description that has no output_order entry:
the parser adds an expression-less macro constant to constants and all but not
to output_order (datacollectingparser.py lines 271-276). -/
def orphanStore : Store :=
  [ { data := .constantD "M" (.constE "True" []), include_rule := .yes, included := true } ]

/-- C9 counterexample: main tests emptiness of the included-filtered
output_order, not whether zero descriptions are included; with one included
description absent from output_order the run fails even though a description
is included, where the claim promises the included entries are emitted. -/
theorem main_select_errors_despite_included :
    (getDesc orphanStore 0).included = true ∧
    mainSelect orphanStore [] =
      .error "No included target members - output would be empty." :=
  ⟨rfl, rfl⟩

/-- C9 (amended): the run fails exactly when no entry of the declaration
sequence output_order is included (rather than when zero descriptions are
included); otherwise the emitted sequence is the included-filtered
output_order, a sublist of it (relative order preserved) containing exactly
the included entries. -/
theorem main_select_spec (st : Store) (oo : List (String × Nat)) :
    (mainSelect st oo = .error "No included target members - output would be empty." ↔
      ∀ kd ∈ oo, (getDesc st kd.2).included = false) ∧
    ((∃ kd ∈ oo, (getDesc st kd.2).included = true) →
      mainSelect st oo = .ok (oo.filter (fun kd => (getDesc st kd.2).included)) ∧
      (oo.filter (fun kd => (getDesc st kd.2).included)).Sublist oo ∧
      (∀ kd, kd ∈ oo.filter (fun kd2 => (getDesc st kd2.2).included) ↔
        kd ∈ oo ∧ (getDesc st kd.2).included = true)) := by
  have hmem : ∀ kd, kd ∈ oo.filter (fun kd2 => (getDesc st kd2.2).included) ↔
      kd ∈ oo ∧ (getDesc st kd.2).included = true := by
    intro kd
    simp [List.mem_filter]
  constructor
  · constructor
    · intro herr kd hkd
      by_cases hfe : (oo.filter (fun kd2 => (getDesc st kd2.2).included)).isEmpty = true
      · cases hinc : (getDesc st kd.2).included with
        | false => rfl
        | true =>
          have hin : kd ∈ oo.filter (fun kd2 => (getDesc st kd2.2).included) :=
            (hmem kd).mpr ⟨hkd, hinc⟩
          rw [List.isEmpty_iff] at hfe
          rw [hfe] at hin
          exact absurd hin (List.not_mem_nil kd)
      · exfalso
        unfold mainSelect at herr
        rw [if_neg hfe] at herr
        exact Except.noConfusion herr
    · intro h
      have hnil : oo.filter (fun kd2 => (getDesc st kd2.2).included) = [] := by
        rw [List.eq_nil_iff_forall_not_mem]
        intro kd hin
        rcases (hmem kd).mp hin with ⟨hkd, hinc⟩
        rw [h kd hkd] at hinc
        exact Bool.noConfusion hinc
      unfold mainSelect
      rw [if_pos (by rw [hnil]; rfl)]
  · rintro ⟨kd, hkd, hinc⟩
    have hne : (oo.filter (fun kd2 => (getDesc st kd2.2).included)).isEmpty = false := by
      have hin : kd ∈ oo.filter (fun kd2 => (getDesc st kd2.2).included) :=
        (hmem kd).mpr ⟨hkd, hinc⟩
      cases hfl : oo.filter (fun kd2 => (getDesc st kd2.2).included) with
      | nil =>
        rw [hfl] at hin
        exact absurd hin (List.not_mem_nil kd)
      | cons a t => rfl
    refine ⟨?_, List.filter_sublist _, hmem⟩
    unfold mainSelect
    rw [if_neg (by simp [hne])]

def w9store : Store :=
  [ { data := .constantD "c" (.constE "1" []), include_rule := .yes, included := true } ]

def w9oo : List (String × Nat) := [("constant", 0)]

/-- Concrete instantiation of the output-selection theorem. -/
theorem main_select_spec_witness :
    mainSelect w9store w9oo = .ok (w9oo.filter (fun kd => (getDesc w9store kd.2).included)) :=
  ((main_select_spec w9store w9oo).2 ⟨("constant", 0), by decide, rfl⟩).1

end Ctypesgen

namespace Ctypesgen

/-- The option fields the header-masking passes read. -/
structure Opts where
  headers : List String := []
  system_headers : List String := []
  builtin_symbols : Bool := false
  all_headers : Bool := false

/-- os.path.basename / pathlib.Path(...).name on slash-separated paths. -/
def basename (s : String) : String := (s.splitOn "/").getLastD s

/-- One iteration of mask_external_members (current version,
src/src/ctypesgen/processor/operations.py lines 46-58): desc.src[0] is read
unguarded, so a missing source location raises (TypeError in Python). -/
def maskStep (hdrNames : List String) (opts : Opts) (st : Store) (i : Nat) :
    Except String Store :=
  match (getDesc st i).src with
  | none => .error "TypeError: NoneType object is not subscriptable"
  | some src =>
    if src.1 = "<command line>" then
      .ok (modifyDesc st i (fun x => { x with include_rule := .if_needed }))
    else if src.1 = "<built-in>" ∧ ¬opts.builtin_symbols then
      .ok (modifyDesc st i (fun x => { x with include_rule := .if_needed }))
    else if ¬(basename src.1 ∈ hdrNames ∨ opts.all_headers = true) then
      .ok (modifyDesc st i (fun x => { x with include_rule := .if_needed }))
    else .ok st

/-- mask_external_members, current version (lines 46-58). -/
def mask_external_members (opts : Opts) (all : List Nat) (st : Store) :
    Except String Store :=
  let hdrNames := (opts.headers ++ opts.system_headers).map basename
  all.foldlM (fun st i => maskStep hdrNames opts st i) st

/-- One iteration of the legacy remove_descriptions_in_system_headers
(src/ctypesgen/processor/operations.py lines 49-66): descriptions without a
source location are skipped. -/
def rdishStep (known : List String) (opts : Opts) (st : Store) (i : Nat) : Store :=
  match (getDesc st i).src with
  | none => st
  | some src =>
    if src.1 = "<command line>" then
      modifyDesc st i (fun x => { x with include_rule := .if_needed })
    else if src.1 = "<built-in>" then
      if ¬opts.builtin_symbols then
        modifyDesc st i (fun x => { x with include_rule := .if_needed })
      else st
    else if ¬(basename src.1 ∈ known) then
      if ¬opts.all_headers then
        modifyDesc st i (fun x => { x with include_rule := .if_needed })
      else st
    else st

/-- remove_descriptions_in_system_headers, legacy version (lines 49-66). -/
def remove_descriptions_in_system_headers (opts : Opts) (all : List Nat)
    (st : Store) : Store :=
  let known := opts.headers.map basename
  all.foldl (rdishStep known opts) st

theorem rdishStep_other (known : List String) (opts : Opts) (st : Store) (i k : Nat)
    (h : i ≠ k) : getDesc (rdishStep known opts st i) k = getDesc st k := by
  unfold rdishStep
  split
  · rfl
  · split
    · exact getDesc_modify_ne _ _ _ _ h
    · split
      · split
        · exact getDesc_modify_ne _ _ _ _ h
        · rfl
      · split
        · split
          · exact getDesc_modify_ne _ _ _ _ h
          · rfl
        · rfl

theorem rdish_fold_none_src (known : List String) (opts : Opts) (all : List Nat) :
    ∀ (st : Store) (k : Nat), (getDesc st k).src = none →
      getDesc (all.foldl (rdishStep known opts) st) k = getDesc st k := by
  induction all with
  | nil => intro st k _; rfl
  | cons i t ih =>
    intro st k h
    rw [List.foldl_cons]
    by_cases hik : i = k
    · subst hik
      have hstep : rdishStep known opts st i = st := by
        unfold rdishStep
        rw [h]
      rw [hstep]
      exact ih st i h
    · rw [ih _ k (by rw [rdishStep_other _ _ _ _ _ hik]; exact h),
        rdishStep_other _ _ _ _ _ hik]

end Ctypesgen

namespace Ctypesgen

/-- A description without a source location, like an auto-generated typedef
alias for a struct that has no src. -/
def noSrcStore : Store :=
  [ { data := .typedefD "t" (.simple "int" false 0 []), src := none, include_rule := .yes } ]

def maskOpts : Opts := { headers := ["a.h"] }

/-- C10 counterexample: the current mask_external_members reads desc.src[0]
without a None guard, so on a description whose src is None the pass raises
instead of terminating normally; only the legacy pass guards src. -/
theorem mask_external_members_crashes_on_none_src :
    (getDesc noSrcStore 0).src = none ∧
    mask_external_members maskOpts [0] noSrcStore =
      .error "TypeError: NoneType object is not subscriptable" :=
  ⟨rfl, rfl⟩

/-- C10 (amended, legacy pass): remove_descriptions_in_system_headers skips
descriptions whose src is None, so it terminates without an error and leaves
such a description (in particular its inclusion rule) unchanged. The current
mask_external_members instead raises; see the counterexample. -/
theorem remove_descriptions_in_system_headers_none_src
    (opts : Opts) (all : List Nat) (st : Store) (k : Nat)
    (h : (getDesc st k).src = none) :
    getDesc (remove_descriptions_in_system_headers opts all st) k = getDesc st k ∧
    (getDesc (remove_descriptions_in_system_headers opts all st) k).include_rule =
      (getDesc st k).include_rule := by
  have heq := rdish_fold_none_src (opts.headers.map basename) opts all st k h
  exact ⟨heq, by rw [show getDesc (remove_descriptions_in_system_headers opts all st) k
    = getDesc st k from heq]⟩

/-- Concrete instantiation of the legacy masking-pass theorem. -/
theorem remove_descriptions_in_system_headers_none_src_witness :
    getDesc (remove_descriptions_in_system_headers maskOpts [0] noSrcStore) 0 =
      getDesc noSrcStore 0 ∧
    (getDesc (remove_descriptions_in_system_headers maskOpts [0] noSrcStore) 0).include_rule =
      (getDesc noSrcStore 0).include_rule :=
  remove_descriptions_in_system_headers_none_src maskOpts [0] noSrcStore 0 rfl

end Ctypesgen
